import Mathlib

/-!
Verification development for the `preprocess_eng` query-understanding
pipeline of the HypeLens-AI repository.  Python strings are modelled as
`List Char`; CPython floats holding the confidence constants of the
source are modelled as rationals (all comparisons in the source involve
short decimal constants, on which float and rational order agree);
external collaborators (the fastText LID model, the remote IndicXlit
service, the product scraper, the URL expander) are parameters of the
embedded functions.
-/

namespace HypeLens

abbrev Str := List Char

/-- Python whitespace characters (`str.split`, `str.strip`, `str.isspace`
for the ASCII range, which is the range exercised by this development). -/
def isWS (c : Char) : Bool :=
  c = ' ' || c = '\t' || c = '\n' || c = '\x0d' || c = '\x0b' || c = '\x0c'

/-- Association-list lookup used to model Python `dict` lookups. -/
def alookup {α β : Type} [DecidableEq α] : List (α × β) → α → Option β
  | [], _ => none
  | p :: rest, x => if p.1 = x then some p.2 else alookup rest x

/-- Python `dict.get(x, x)`: map through the table, default to the key. -/
def alistGet {α : Type} [DecidableEq α] (A : List (α × α)) (x : α) : α :=
  (alookup A x).getD x

/-- ASCII case-folding pairs; `str.lower` on the character range this
development exercises (ASCII letters are the only cased characters in
the source's token tables). -/
def lowerPairs : List (Char × Char) :=
  [('A','a'),('B','b'),('C','c'),('D','d'),('E','e'),('F','f'),('G','g'),
   ('H','h'),('I','i'),('J','j'),('K','k'),('L','l'),('M','m'),('N','n'),
   ('O','o'),('P','p'),('Q','q'),('R','r'),('S','s'),('T','t'),('U','u'),
   ('V','v'),('W','w'),('X','x'),('Y','y'),('Z','z')]

/-- `str.lower` on one character. -/
def pyLower (c : Char) : Char := alistGet lowerPairs c

/-- `str.lower` on a string. -/
def lowerL (l : Str) : Str := l.map pyLower

/-- Helper for `splitWS`: accumulates the current (reversed) token. -/
def splitAux : Str → Str → List Str
  | [], cur => if cur = [] then [] else [cur.reverse]
  | c :: rest, cur =>
    if isWS c then
      if cur = [] then splitAux rest [] else cur.reverse :: splitAux rest []
    else splitAux rest (c :: cur)

/-- Python `str.split()` (no argument): split on whitespace runs,
dropping empty pieces. -/
def splitWS (l : Str) : List Str := splitAux l []

/-- Python `' '.join(tokens)`. -/
def joinSP : List Str → Str
  | [] => []
  | [t] => t
  | t :: rest => t ++ ' ' :: joinSP rest

/-- Python `str.strip()`. -/
def stripWS (l : Str) : Str :=
  ((l.dropWhile isWS).reverse.dropWhile isWS).reverse

def isDigitCh (c : Char) : Bool := 48 ≤ c.toNat && c.toNat ≤ 57

def isLowerAZ (c : Char) : Bool := 97 ≤ c.toNat && c.toNat ≤ 122

def isUpperAZ (c : Char) : Bool := 65 ≤ c.toNat && c.toNat ≤ 90

def isAlphaCh (c : Char) : Bool := isLowerAZ c || isUpperAZ c

/-! ## SpellCorrector (src/backend/preprocess_eng/spell_corrector.py)

The `symspellpy` dependency is modelled by its documented semantics:
`lookup(token, Verbosity.CLOSEST, max_edit_distance=2)` returns the
exact dictionary match when one exists (early exit), otherwise all
dictionary terms within Damerau-OSA distance 2, sorted by distance and
then by descending term frequency.  `_symspell_correct` takes the head
of that list. -/

/-- One row of the Damerau-OSA (optimal string alignment) DP table.
`pprev`/`prev` are rows `i-1` and `i`; the result is row `i+1`, built
left to right (the accumulator keeps the finished cells reversed, so
its head is the cell to the left). -/
def osaRow (a b : Str) (pprev prev : List Nat) (i : Nat) : List Nat :=
  let ai := a.getD i ' '
  let rowRev := (List.range b.length).foldl (fun acc j =>
    let bj := b.getD j ' '
    let left := acc.headD 0 + 1
    let up := prev.getD (j+1) 0 + 1
    let diag := prev.getD j 0 + (if ai = bj then 0 else 1)
    let base := Nat.min left (Nat.min up diag)
    let cell :=
      if 1 ≤ i && 1 ≤ j && ai = b.getD (j-1) ' ' && a.getD (i-1) ' ' = bj then
        Nat.min base (pprev.getD (j-1) 0 + 1)
      else base
    cell :: acc) [i+1]
  rowRev.reverse

/-- Damerau-OSA edit distance (the `symspellpy` default distance). -/
def osaDist (a b : Str) : Nat :=
  let rows := (List.range a.length).foldl
    (fun (rs : List Nat × List Nat) i => (rs.2, osaRow a b rs.1 rs.2 i))
    ([], List.range (b.length + 1))
  rows.2.getD b.length 0

/-- The SymSpell dictionary built by `_load_ecommerce_terms` (the
default when no custom dictionary file is provided): term, frequency. -/
def dictEntriesS : List (String × Nat) :=
  [("samsung", 100000), ("apple", 100000), ("iphone", 100000),
   ("oneplus", 80000), ("xiaomi", 80000), ("realme", 70000),
   ("redmi", 70000), ("vivo", 60000), ("oppo", 60000),
   ("nokia", 50000), ("motorola", 40000), ("lg", 40000),
   ("sony", 50000), ("mi", 60000), ("poco", 40000),
   ("headphone", 50000), ("headphones", 50000), ("earphone", 40000),
   ("bluetooth", 60000), ("wireless", 50000), ("charger", 40000),
   ("cable", 30000), ("adapter", 25000), ("powerbank", 30000),
   ("speaker", 35000), ("watch", 40000), ("smartwatch", 35000),
   ("phone", 80000), ("smartphone", 70000), ("mobile", 60000),
   ("laptop", 50000), ("tablet", 30000), ("computer", 40000),
   ("fast", 20000), ("quick", 15000), ("charging", 25000),
   ("battery", 30000), ("camera", 35000), ("storage", 25000),
   ("display", 20000), ("screen", 25000), ("processor", 20000),
   ("memory", 18000), ("ram", 25000), ("rom", 20000),
   ("under", 40000), ("below", 30000), ("around", 25000),
   ("price", 50000), ("cost", 30000), ("cheap", 25000),
   ("budget", 30000), ("affordable", 20000), ("deal", 25000),
   ("rupees", 60000), ("taka", 40000), ("lakh", 30000)]

def dictEntries : List (Str × Nat) := dictEntriesS.map (fun p => (p.1.toList, p.2))

def dictTerms : List Str := dictEntries.map (·.1)

/-- `SpellCorrector._symspell_correct` over the modelled `symspellpy`
lookup: exact match wins; otherwise the closest (then most frequent)
dictionary term within OSA distance 2; the token itself when no
suggestion exists. -/
def symspellCorrect (t : Str) : Str :=
  if t ∈ dictTerms then t
  else
    let cands := dictEntries.filterMap (fun e =>
      let d := osaDist t e.1
      if d ≤ 2 then some (e.1, d, e.2) else none)
    match cands with
    | [] => t
    | c :: cs =>
      (cs.foldl (fun best x =>
        if x.2.1 < best.2.1 ∨ (x.2.1 = best.2.1 ∧ best.2.2 < x.2.2) then x
        else best) c).1

/-- `SpellCorrector.REWRITE_RULES` (`_build_rewrite_rules`). -/
def rwRulesS : List (String × String) :=
  [("iphon", "iphone"), ("iphne", "iphone"), ("iphn", "iphone"),
   ("sumsung", "samsung"), ("samsng", "samsung"), ("samsug", "samsung"),
   ("onplus", "oneplus"), ("onepls", "oneplus"),
   ("realme", "realme"), ("reelme", "realme"),
   ("xiaomi", "xiaomi"), ("xiomi", "xiaomi"),
   ("redmi", "redmi"), ("readmi", "redmi"),
   ("headphon", "headphone"), ("headfone", "headphone"), ("hedphone", "headphone"),
   ("earphon", "earphone"), ("earfone", "earphone"),
   ("bluetooth", "bluetooth"), ("blutooth", "bluetooth"), ("bluetoth", "bluetooth"),
   ("wireles", "wireless"), ("wirelss", "wireless"),
   ("charger", "charger"), ("chargr", "charger"),
   ("takar", "taka"), ("takaa", "taka"),
   ("rupee", "rupees"), ("rupaye", "rupees"), ("rupya", "rupees"), ("rupe", "rupees"),
   ("undr", "under"), ("belo", "below"), ("arond", "around"),
   ("prise", "price"), ("pric", "price")]

def rwRules : List (Str × Str) := rwRulesS.map (fun p => (p.1.toList, p.2.toList))

/-- Token-wise rewrite-table application. -/
def rwTok (t : Str) : Str := alistGet rwRules t

/-- `SpellCorrector.UNIT_PATTERNS` (`_build_unit_patterns`). -/
def unitRulesS : List (String × String) :=
  [("taka", "rupees"), ("টাকা", "rupees"),
   ("rupaye", "rupees"), ("rupya", "rupees"),
   ("rs", "rupees"), ("inr", "rupees"), ("₹", "rupees"),
   ("pcs", "pieces"), ("pc", "pieces"),
   ("kg", "kilogram"), ("gm", "gram"),
   ("ltr", "liter"), ("ml", "milliliter")]

def unitRules : List (Str × Str) := unitRulesS.map (fun p => (p.1.toList, p.2.toList))

/-- Token-wise unit normalization. -/
def normTok (t : Str) : Str := alistGet unitRules t

/-- `re.fullmatch(r"\d+", t)` (ASCII digits; the source's tokens carry
only ASCII digits). -/
def patDigits (t : Str) : Bool := !t.isEmpty && t.all isDigitCh

/-- `re.fullmatch(r"\d+X", t)` where `X` is a single character from
`suf`: leading digit run, then exactly one suffix character. -/
def patDigitsOne (suf : List Char) (t : Str) : Bool :=
  let ds := t.takeWhile isDigitCh
  !ds.isEmpty &&
    (match t.drop ds.length with
     | [c] => suf.contains c
     | _ => false)

/-- `re.fullmatch(r"\d+suffix", t)` for a fixed all-letter suffix. -/
def patDigitsSuf (suf : Str) (t : Str) : Bool :=
  let ds := t.takeWhile isDigitCh
  !ds.isEmpty && t.drop ds.length = suf

/-- `re.fullmatch(r"[a-z]\d+", t)` (tokens reaching the preserve check
are already lower-cased). -/
def patLetterDigits (t : Str) : Bool :=
  match t with
  | c :: rest => isLowerAZ c && !rest.isEmpty && rest.all isDigitCh
  | [] => false

/-- `SpellCorrector._should_preserve`. -/
def shouldPreserve (t : Str) : Bool :=
  decide (t.length < 3) ||
  patDigits t ||
  patDigitsOne ['k', 'm', 'b', 't'] t ||
  patDigitsSuf ("gb").toList t || patDigitsSuf ("tb").toList t || patDigitsSuf ("mb").toList t ||
  patDigitsSuf ("mah").toList t || patDigitsSuf ("wh").toList t ||
  patDigitsSuf ("mp").toList t || patDigitsSuf ("mpx").toList t ||
  patLetterDigits t ||
  patDigitsOne (List.filter isLowerAZ (List.range 26 |>.map (fun i => Char.ofNat (97 + i)))) t

/-- Per-token step 2 of `_correct_cached`: preserve or SymSpell-correct. -/
def correctTok (t : Str) : Str :=
  if shouldPreserve t then t else symspellCorrect t

/-- `SpellCorrector._apply_rewrite_rules`: lower, split, rewrite, join. -/
def applyRewriteRules (text : Str) : Str :=
  joinSP ((splitWS (lowerL text)).map rwTok)

/-- Steps 2-3 of `_correct_cached`: split, preserve/SymSpell, join. -/
def spellPass (text : Str) : Str :=
  joinSP ((splitWS text).map correctTok)

/-- `SpellCorrector._normalize_units`: lower, split, map units, join. -/
def normalizeUnits (text : Str) : Str :=
  joinSP ((splitWS (lowerL text)).map normTok)

/-- `SpellCorrector._correct_cached` (the caching layer is semantically
transparent). -/
def correctCached (text : Str) (flag : Bool) : Str :=
  let t1 := applyRewriteRules text
  let t2 := spellPass t1
  if flag then normalizeUnits t2 else t2

/-- `SpellCorrector.correct`. -/
def correct (text : Str) (flag : Bool := true) : Str :=
  if text = [] then [] else correctCached text flag

/-- Wellformedness of a token flowing through the corrector: non-empty,
whitespace-free, and without ASCII uppercase letters. -/
def wfTok (t : Str) : Prop :=
  t ≠ [] ∧ (∀ c ∈ t, isWS c = false) ∧ (∀ c ∈ t, isUpperAZ c = false)

/-! ## SmartRomanizedDetector (src/backend/preprocess_eng/smart_romanized_detector.py)

Scores are rationals; the character-frequency cosine-similarity method
(`_analyze_char_frequency`) computes `math.sqrt` over floats, so it is
kept as a parameter `freq` constrained only by the bounds the source
guarantees (each normalized similarity lies in `[0,1]`). -/

structure RomScores where
  hi : ℚ
  bn : ℚ
  en : ℚ
deriving Repr, DecidableEq

/-- What `_analyze_char_frequency` guarantees about its result: the
three cosine similarities are non-negative and, after normalization by
their sum, each lies in `[0,1]`. -/
def FreqBounds (f : Str → RomScores) : Prop :=
  ∀ t, 0 ≤ (f t).hi ∧ (f t).hi ≤ 1 ∧ 0 ≤ (f t).bn ∧ (f t).bn ≤ 1 ∧
       0 ≤ (f t).en ∧ (f t).en ≤ 1

def coreHindiWordsS : List String :=
  ["ka", "ke", "ki", "ko", "se", "me", "mein", "par", "tak",
   "hai", "hain", "chahiye", "kharidna", "khareedna", "dekhna",
   "milega", "lagta", "dena", "lena",
   "aur", "ya", "kya", "koi", "yah", "woh", "ek", "do",
   "mujhe", "mere", "mera", "tumhe", "tumhara",
   "rupay", "rupaye", "rupaiye", "taka", "paisa",
   "sasta", "mehenga", "accha", "badhiya", "best",
   "under", "upor", "upar", "niche", "andar"]

def coreHindiWords : List Str := coreHindiWordsS.map String.toList

def coreBengaliWordsS : List String :=
  ["ar", "er", "te", "ke", "ba", "o", "ebong",
   "ache", "achhe", "dekhao", "dekhabo", "keno", "kena",
   "lagbe", "hobe", "debo", "nebo",
   "amake", "amar", "tomar", "take", "tar", "ei", "oi",
   "koto", "ki", "ekta", "duti",
   "taka", "dam", "damer", "bhalo", "sundor",
   "upor", "upore", "niche", "moddhe", "vitore",
   "under"]

def coreBengaliWords : List Str := coreBengaliWordsS.map String.toList

def hindiBigramsS : List String :=
  ["ka", "ki", "ke", "ko", "kh", "gh", "ch", "jh",
   "th", "dh", "ph", "bh", "sh", "oo", "aa", "ee", "ai", "au"]

def hindiBigrams : List Str := hindiBigramsS.map String.toList

def hindiTrigramsS : List String :=
  ["kha", "gha", "cha", "chh", "jha", "tha", "dha",
   "pha", "bha", "sha", "kya", "khya", "gya"]

def hindiTrigrams : List Str := hindiTrigramsS.map String.toList

def bengaliBigramsS : List String :=
  ["or", "er", "ar", "ir", "ur", "kh", "gh", "ch", "jh", "th", "dh", "ph", "bh"]

def bengaliBigrams : List Str := bengaliBigramsS.map String.toList

def bengaliTrigramsS : List String :=
  ["ore", "are", "ere", "iye", "aye", "kha", "gha", "cha", "jha", "tha", "dha"]

def bengaliTrigrams : List Str := bengaliTrigramsS.map String.toList

def isVowel (c : Char) : Bool :=
  c = 'a' || c = 'e' || c = 'i' || c = 'o' || c = 'u'

/-- All length-2 contiguous substrings. -/
def windows2 : Str → List Str
  | a :: b :: rest => [a, b] :: windows2 (b :: rest)
  | _ => []

/-- All length-3 contiguous substrings. -/
def windows3 : Str → List Str
  | a :: b :: c :: rest => [a, b, c] :: windows3 (b :: c :: rest)
  | _ => []

/-- `SmartRomanizedDetector._analyze_core_words`. -/
def analyzeCoreWords (words : List Str) : RomScores :=
  if words = [] then ⟨0, 0, 0⟩
  else
    let h := words.countP (· ∈ coreHindiWords)
    let b := words.countP (· ∈ coreBengaliWords)
    { hi := if h > 0 then min 1 ((h : ℚ) * mkRat 1 4) else 0
      bn := if b > 0 then min 1 ((b : ℚ) * mkRat 1 4) else 0
      en := if h = 0 ∧ b = 0 then 1 else mkRat 1 10 }

/-- `SmartRomanizedDetector._analyze_ngrams`. -/
def analyzeNgrams (text : Str) : RomScores :=
  let bigrams := (windows2 text).filter (fun w => w.all isAlphaCh)
  let trigrams := (windows3 text).filter (fun w => w.all isAlphaCh)
  if bigrams = [] ∧ trigrams = [] then ⟨0, 0, 0⟩
  else
    let total := bigrams.length + trigrams.length
    if total > 0 then
      let h : ℚ := mkRat (bigrams.countP (· ∈ hindiBigrams)
                     + trigrams.countP (· ∈ hindiTrigrams) : ℕ) total
      let b : ℚ := mkRat (bigrams.countP (· ∈ bengaliBigrams)
                     + trigrams.countP (· ∈ bengaliTrigrams) : ℕ) total
      ⟨h, b, 1 - max h b⟩
    else ⟨0, 0, 0⟩

/-- `re.search(r"^[kgc]h[aeiou]", w)`. -/
def patAspStart (w : Str) : Bool :=
  match w with
  | a :: b :: c :: _ => (a = 'k' || a = 'g' || a = 'c') && b = 'h' && isVowel c
  | _ => false

/-- `re.search(r"[aeiou]{2}", w)`. -/
def patDoubleVowel (w : Str) : Bool :=
  (windows2 w).any (fun p => p.all isVowel)

/-- `re.search(r"^[ptk]h", w)`. -/
def patPtkH (w : Str) : Bool :=
  match w with
  | a :: b :: _ => (a = 'p' || a = 't' || a = 'k') && b = 'h'
  | _ => false

/-- `re.search(r"[aeiou]r$", w)`. -/
def patVowelR (w : Str) : Bool :=
  match w.reverse with
  | r :: v :: _ => r = 'r' && isVowel v
  | _ => false

/-- `re.search(r"^[ptk]h[aeiou]", w)`. -/
def patPtkHVowel (w : Str) : Bool :=
  match w with
  | a :: b :: c :: _ => (a = 'p' || a = 't' || a = 'k') && b = 'h' && isVowel c
  | _ => false

/-- `re.search(r"[oy]e$", w)`. -/
def patOyE (w : Str) : Bool :=
  match w.reverse with
  | e :: o :: _ => e = 'e' && (o = 'o' || o = 'y')
  | _ => false

def hindiWordPattern (w : Str) : Bool :=
  patAspStart w || patDoubleVowel w || patPtkH w

def bengaliWordPattern (w : Str) : Bool :=
  patVowelR w || patPtkHVowel w || patOyE w

/-- `SmartRomanizedDetector._analyze_phonetic_patterns`. -/
def analyzePhonetic (text : Str) : RomScores :=
  let words := (splitWS text).filter
    (fun w => !w.isEmpty && w.all isAlphaCh && decide (w.length > 2))
  if words = [] then ⟨0, 0, 0⟩
  else
    let h : ℚ := mkRat (words.countP hindiWordPattern : ℕ) words.length
    let b : ℚ := mkRat (words.countP bengaliWordPattern : ℕ) words.length
    ⟨h, b, 1 - max h b⟩

/-- The combined weighted score (65 / 15 / 10 / 10). -/
def smartScores (freq : Str → RomScores) (textLower : Str) : RomScores :=
  let w := analyzeCoreWords (splitWS textLower)
  let n := analyzeNgrams textLower
  let f := freq textLower
  let p := analyzePhonetic textLower
  { hi := w.hi * mkRat 13 20 + n.hi * mkRat 3 20 + f.hi * mkRat 1 10 + p.hi * mkRat 1 10
    bn := w.bn * mkRat 13 20 + n.bn * mkRat 3 20 + f.bn * mkRat 1 10 + p.bn * mkRat 1 10
    en := w.en * mkRat 13 20 + n.en * mkRat 3 20 + f.en * mkRat 1 10 + p.en * mkRat 1 10 }

/-- `max(scores, key=scores.get)` over insertion order
`[hi_Latn, bn_Latn, en]` (the first maximal key wins). -/
def smartArgmax (s : RomScores) : Str :=
  if s.en > max s.hi s.bn then ("en").toList
  else if s.bn > s.hi then ("bn_Latn").toList
  else ("hi_Latn").toList

/-- The close-scores preference step and the final label. -/
def smartChoose (s : RomScores) : Str × ℚ :=
  let best := smartArgmax s
  if best = ("en").toList then
    let indic := max s.hi s.bn
    if indic > 0 ∧ s.en - indic ≤ mkRat 3 20 then
      if s.hi > s.bn then (("hi_Latn").toList, s.hi) else (("bn_Latn").toList, s.bn)
    else (best, s.en)
  else if best = ("bn_Latn").toList then (best, s.bn)
  else (best, s.hi)

/-- `SmartRomanizedDetector.detect_romanized_language` (the LRU layer is
semantically transparent). -/
def smartDetect (freq : Str → RomScores) (text : Str) : Option Str × ℚ :=
  if text = [] ∨ stripWS text = [] then (none, 0)
  else
    let textLower := lowerL text
    let words := splitWS textLower
    if words.all (fun w => patDigits w || decide (w.length ≤ 2)) then (none, 0)
    else
      let s := smartScores freq textLower
      let (best, conf) := smartChoose s
      if conf ≥ mkRat 3 10 ∧ best ≠ ("en").toList then (some best, conf)
      else (none, 0)

/-! ## Tokenizer (src/backend/preprocess_eng/tokenizer.py)

The Rust pre-tokenizer (`Whitespace` then `Punctuation(isolated)`) is
modelled by its documented behavior: maximal runs of word characters,
with every punctuation character isolated as its own token and
whitespace discarded.  Non-ASCII characters appearing in this
development are Indic letters and combining marks, which are word
characters for that pre-tokenizer. -/

def isWordChar (c : Char) : Bool :=
  isAlphaCh c || isDigitCh c || c = '_' || decide (128 ≤ c.toNat)

def pretokAux : Str → Str → List Str
  | [], cur => if cur = [] then [] else [cur.reverse]
  | c :: rest, cur =>
    if isWS c then
      if cur = [] then pretokAux rest [] else cur.reverse :: pretokAux rest []
    else if isWordChar c then pretokAux rest (c :: cur)
    else
      if cur = [] then [c] :: pretokAux rest []
      else cur.reverse :: [c] :: pretokAux rest []

/-- `Tokenizer.tokenize_icu_style` in the enforced Rust mode. -/
def pretokenize (l : Str) : List Str := pretokAux l []

inductive ScriptTag where
  | Latin | Number | Devanagari | Bengali | Tamil | Telugu | Gujarati
  | Kannada | Malayalam | Punjabi | Odia | Arabic | Other | Unknown | Space
deriving Repr, DecidableEq

/-- `Tokenizer.detect_script_unicode_fast` (single character). -/
def charScript (c : Char) : ScriptTag :=
  if isWS c then .Space
  else if isDigitCh c then .Number
  else if c.toNat ≤ 0x00FF then .Latin
  else if 0x0900 ≤ c.toNat ∧ c.toNat ≤ 0x097F then .Devanagari
  else if 0x0980 ≤ c.toNat ∧ c.toNat ≤ 0x09FF then .Bengali
  else if 0x0B80 ≤ c.toNat ∧ c.toNat ≤ 0x0BFF then .Tamil
  else if 0x0C00 ≤ c.toNat ∧ c.toNat ≤ 0x0C7F then .Telugu
  else if 0x0A80 ≤ c.toNat ∧ c.toNat ≤ 0x0AFF then .Gujarati
  else if 0x0C80 ≤ c.toNat ∧ c.toNat ≤ 0x0CFF then .Kannada
  else if 0x0D00 ≤ c.toNat ∧ c.toNat ≤ 0x0D7F then .Malayalam
  else if 0x0A00 ≤ c.toNat ∧ c.toNat ≤ 0x0A7F then .Punjabi
  else if 0x0B00 ≤ c.toNat ∧ c.toNat ≤ 0x0B7F then .Odia
  else if 0x0600 ≤ c.toNat ∧ c.toNat ≤ 0x06FF then .Arabic
  else .Other

/-- First-occurrence order of the distinct scripts of a token (Python
dict insertion order for the per-token counts). -/
def dedupKeepFirst : List ScriptTag → List ScriptTag
  | [] => []
  | s :: rest => s :: (dedupKeepFirst rest).filter (· ≠ s)

/-- `Tokenizer.detect_token_script`: dominant script over per-character
counts, first-inserted key winning ties, Number then Other fallback. -/
def detectTokenScript (t : Str) : ScriptTag :=
  if t = [] then .Unknown
  else
    let all := t.map charScript
    let keys := (dedupKeepFirst all).filter
      (fun s => s ∉ [ScriptTag.Number, ScriptTag.Space, ScriptTag.Other])
    match keys with
    | [] => if all.contains ScriptTag.Number then .Number else .Other
    | k :: ks =>
      ks.foldl (fun best x =>
        if all.count x > all.count best then x else best) k

/-- The per-token fast-path tagging of `tokenize_step3_strict`. -/
def tagTok (t : Str) : ScriptTag :=
  match t with
  | [] => detectTokenScript []
  | c :: _ =>
    if c.toNat < 128 then (if patDigits t then .Number else .Latin)
    else if 0x0900 ≤ c.toNat ∧ c.toNat ≤ 0x097F then .Devanagari
    else if 0x0980 ≤ c.toNat ∧ c.toNat ≤ 0x09FF then .Bengali
    else detectTokenScript t

def hindiMarkerWordsS : List String :=
  ["mujhe", "chahiye", "dikhao", "dikhaiye", "dikhaye", "karo", "kariye",
   "ka", "ki", "ke", "ko", "hai", "ho", "hain", "tha", "thi", "the",
   "kya", "kaun", "kaise", "kahan", "dekho", "dekhiye", "lena", "lijiye",
   "dena", "dijiye", "hua", "hoon", "tumhara", "tumhe", "aapka", "aapko",
   "na", "nahi", "nahin", "haan", "toh", "wala", "wali", "mere", "mera"]

def hindiMarkerWords : List Str := hindiMarkerWordsS.map String.toList

def bengaliMarkerWordsS : List String :=
  ["amake", "amar", "tomar", "dekhao", "dekhaye", "koro", "korte", "koriye",
   "hobe", "ache", "achhe", "niye", "dao", "diye", "kemon", "kothay", "kon",
   "tumi", "ami", "apni", "eta", "ota", "ki", "na", "haan", "chilo", "chhilo"]

def bengaliMarkerWords : List Str := bengaliMarkerWordsS.map String.toList

def englishIndicatorsS : List String :=
  ["wireless", "bluetooth", "headphone", "earphone", "laptop",
   "mobile", "phone", "under", "show", "find", "search", "buy"]

def englishIndicators : List Str := englishIndicatorsS.map String.toList

def startsWithL : Str → Str → Bool
  | [], _ => true
  | _ :: _, [] => false
  | p :: ps, c :: cs => p = c && startsWithL ps cs

/-- Python `p in l` (substring containment). -/
def isSubstr (p : Str) (l : Str) : Bool :=
  match l with
  | [] => p.isEmpty
  | _ :: rest => startsWithL p l || isSubstr p rest

/-- Indic native-script character test of `_detect_script_uncached`
(FAST PATH 3). -/
def isNativeIndicChar (c : Char) : Bool :=
  (0x0900 ≤ c.toNat && c.toNat ≤ 0x097F) ||
  (0x0980 ≤ c.toNat && c.toNat ≤ 0x09FF) ||
  (0x0A80 ≤ c.toNat && c.toNat ≤ 0x0AFF) ||
  (0x0B00 ≤ c.toNat && c.toNat ≤ 0x0B7F) ||
  (0x0B80 ≤ c.toNat && c.toNat ≤ 0x0BFF) ||
  (0x0C00 ≤ c.toNat && c.toNat ≤ 0x0C7F) ||
  (0x0C80 ≤ c.toNat && c.toNat ≤ 0x0CFF) ||
  (0x0D00 ≤ c.toNat && c.toNat ≤ 0x0D7F)

def romMlAccepted : List Str :=
  [("hi").toList, ("bn").toList, ("mr").toList, ("pa").toList,
   ("gu").toList, ("ta").toList, ("te").toList]

/-- Cut a returned `hi_Latn` / `bn_Latn` code at the underscore. -/
def cutUnderscore (l : Str) : Str :=
  if l.contains '_' then l.takeWhile (· ≠ '_') else l

/-- `Tokenizer._detect_script_uncached`.  `ft` is the fastText LID model
(external artifact, a parameter); `freq` is the smart detector's
character-frequency method parameter. -/
def detectScriptUncached (ft : Str → Str × ℚ) (freq : Str → RomScores)
    (text : Str) : Str × ℚ :=
  if text = [] then (("unknown").toList, 0)
  else
    let textLower := lowerL text
    let words := splitWS textLower
    let hm := words.countP (· ∈ hindiMarkerWords)
    let bm := words.countP (· ∈ bengaliMarkerWords)
    if 2 ≤ hm ∨ 2 ≤ bm then
      (if bm ≤ hm then ("hi").toList else ("bn").toList, mkRat 13 20)
    else
      let hasEnglishWord := englishIndicators.any (fun w => isSubstr w textLower)
      let hasOnlyAscii := text.all (fun c => isWS c || decide (c.toNat < 128))
      let hasNoIndic := hm = 0 ∧ bm = 0
      if hasEnglishWord ∧ hasOnlyAscii ∧ hasNoIndic then (("en").toList, mkRat 19 20)
      else
        let clean := stripWS (text.map (fun c => if c = '\n' then ' ' else c))
        if clean.any isNativeIndicChar then ft clean
        else
          let hasLatin := clean.any (fun c => isLowerAZ (pyLower c))
          let smart :=
            if hasLatin then
              match smartDetect freq clean with
              | (some rl, rc) =>
                let rl' := cutUnderscore rl
                if rc > mkRat 1 4 ∧ rl' ∈ romMlAccepted then some (rl', rc) else none
              | (none, _) => none
            else none
          match smart with
          | some r => r
          | none => if clean.length < 2 then (("unknown").toList, 0) else ft clean

structure Step3Result where
  tokens : List Str
  tags : List ScriptTag
  lang : Str
  conf : ℚ
deriving Repr

/-- `Tokenizer.tokenize_step3_strict` with `tag_scripts=True`. -/
def tokenizeStep3 (ft : Str → Str × ℚ) (freq : Str → RomScores)
    (text : Str) : Step3Result :=
  if text = [] then ⟨[], [], ("unknown").toList, 0⟩
  else
    let toks := pretokenize text
    let lid := detectScriptUncached ft freq text
    ⟨toks, toks.map tagTok, lid.1, lid.2⟩

/-! ## CodeMixDetector (src/backend/preprocess_eng/code_mix_detector.py)

The pipeline constructs `CodeMixDetector(use_onnx=False)`, so
`onnx_session is None` and the Smart Checkpoint always takes the
pattern-based fallback. -/

inductive CMLabel where
  | pureEnglish | pureNative | romanizedIndic | mixed | ambiguous
deriving Repr, DecidableEq

inductive CMMethod where
  | fastLane | heuristic | smartCheckpointFallback
deriving Repr, DecidableEq

structure CMResult where
  label : CMLabel
  conf : ℚ
  method : CMMethod
  romLang : Option Str
deriving Repr, DecidableEq

def nativeScripts : List ScriptTag :=
  [.Devanagari, .Bengali, .Tamil, .Telugu, .Gujarati,
   .Kannada, .Malayalam, .Punjabi, .Odia]

def nativeLangsS : List String :=
  ["hi", "bn", "ta", "te", "gu", "kn", "ml", "pa", "or", "mr", "sa", "as"]

def nativeLangs : List Str := nativeLangsS.map String.toList

/-- Script tags of word tokens (`Number`/`Other`/`Unknown`/`Space`
ignored), as extracted in `detect_heuristic`. -/
def wordScripts (tags : List ScriptTag) : List ScriptTag :=
  tags.filter (fun s =>
    s ∉ [ScriptTag.Number, ScriptTag.Other, ScriptTag.Unknown, ScriptTag.Space])

/-- `CodeMixDetector.detect_heuristic` (the Fast Lane). -/
def detectHeuristic (text : Str) (tags : List ScriptTag)
    (hint : Str) (conf : ℚ) : CMResult :=
  if text = [] ∨ tags = [] then ⟨.ambiguous, mkRat 1 2, .heuristic, none⟩
  else
    let ws := wordScripts tags
    if ws = [] then ⟨.ambiguous, mkRat 1 2, .heuristic, none⟩
    else if ws.all (· ∈ nativeScripts) ∧ hint ∈ nativeLangs then
      ⟨.pureNative, mkRat 19 20, .fastLane, none⟩
    else if ws.all (· = .Latin) ∧ hint = ("en").toList ∧ conf > mkRat 17 20 then
      ⟨.pureEnglish, conf, .fastLane, none⟩
    else ⟨.ambiguous, mkRat 1 2, .heuristic, none⟩

/-- `\w+` runs: the `\b(w1|w2|…)\b` alternations of the detector's word
patterns count exactly the maximal word-character runs equal to a listed
word. -/
def wordRunsAux : Str → Str → List Str
  | [], cur => if cur = [] then [] else [cur.reverse]
  | c :: rest, cur =>
    if isWordChar c then wordRunsAux rest (c :: cur)
    else if cur = [] then wordRunsAux rest []
    else cur.reverse :: wordRunsAux rest []

def wordRuns (l : Str) : List Str := wordRunsAux l []

def romanizedHindiWordsS : List String :=
  ["hai", "hain", "ho", "ka", "ki", "ke", "ko", "se", "me", "ne", "bhi",
   "nahi", "kya", "kaise", "kahan",
   "aur", "yah", "woh", "ek", "do", "teen", "char", "panch", "saat",
   "aath", "nau", "das",
   "kharidna", "chahiye", "chahta", "chahti", "milega", "kitna", "kitne",
   "accha", "bahut", "bohot", "thoda", "jyada", "kam", "zyada",
   "mujhe", "mujhko", "tumhe", "tumko", "usko", "dikhao", "dikhaye", "dikhaiye"]

def romanizedBengaliWordsS : List String :=
  ["ache", "achhe", "hobe", "korbo", "kora", "kore", "keno", "kothay", "kivabe",
   "taka", "takar", "dam", "koto", "kemon", "bhalo", "kharap",
   "ekta", "duto", "tin", "char", "panch", "choy", "saat", "aat", "noy", "dosh",
   "ami", "tumi", "apni", "amar", "tomar", "apnar", "oder", "tader",
   "amake", "amae", "amay", "tomake", "tomay", "dekhao", "dekhaye",
   "ar", "aar", "ebong"]

def romanizedTamilWordsS : List String :=
  ["enna", "eppadi", "enga", "eppo", "yaar", "yenna", "yedhu",
   "irukku", "irukkum", "seiyyum", "panna", "pannunga",
   "nalla", "romba", "konjam", "adhigam", "kammiya"]

def romanizedTeluguWordsS : List String :=
  ["undi", "undhi", "cheyyi", "cheyyandi", "ela", "ekkada", "eppudu",
   "manchidi", "chala", "konchem", "ekkuva", "thakkuva"]

/-- `ROMANIZED_PATTERNS`, flattened per language, in dict order. -/
def romanizedWordLists : List (Str × List Str) :=
  [(("hindi").toList, romanizedHindiWordsS.map String.toList),
   (("bengali").toList, romanizedBengaliWordsS.map String.toList),
   (("tamil").toList, romanizedTamilWordsS.map String.toList),
   (("telugu").toList, romanizedTeluguWordsS.map String.toList)]

/-- `CodeMixDetector.detect_romanized_language` (pattern counting). -/
def cmDetectRomanized (text : Str) : Str × ℚ :=
  if text = [] then (("none").toList, 0)
  else
    let runs := wordRuns text
    let scored := romanizedWordLists.filterMap (fun p =>
      let m := runs.countP (· ∈ p.2)
      if 0 < m then some (p.1, min (mkRat m 2) 1) else none)
    match scored with
    | [] => (("none").toList, 0)
    | c :: cs => cs.foldl (fun best x => if best.2 < x.2 then x else best) c

def englishMarkerListsS : List (List String) :=
  [["the", "a", "an", "is", "are", "was", "were", "be", "been", "being"],
   ["have", "has", "had", "do", "does", "did", "will", "would", "should", "could"],
   ["in", "on", "at", "to", "from", "with", "by", "for", "of", "about",
    "under", "over", "below", "above"],
   ["this", "that", "these", "those", "what", "which", "who", "when", "where"],
   ["best", "good", "great", "nice", "cheap", "expensive", "quality", "latest", "new"],
   ["buy", "purchase", "order", "price", "cost", "sale", "discount", "offer", "deal"],
   ["phone", "mobile", "smartphone", "laptop", "tablet", "headphone", "camera", "charger"],
   ["wireless", "bluetooth", "wired", "fast", "charging", "battery", "storage"],
   ["samsung", "iphone", "oneplus", "realme", "xiaomi", "oppo", "vivo", "nokia", "apple"],
   ["rupees", "india", "online", "shopping", "delivery", "warranty"]]

def englishMarkerLists : List (List Str) :=
  englishMarkerListsS.map (·.map String.toList)

/-- `CodeMixDetector.count_english_markers`: number of the ten marker
patterns with at least one hit. -/
def countEnglishMarkers (text : Str) : Nat :=
  englishMarkerLists.countP (fun ws => (wordRuns text).any (· ∈ ws))

/-- `CodeMixDetector._classify_smart_checkpoint` without an ONNX
session (the pattern fallback). -/
def classifySmartCheckpoint (text : Str) (tags : List ScriptTag)
    (hint : Str) : CMResult :=
  let textLower := lowerL text
  let ws := wordScripts tags
  let hasLatin := ws.contains ScriptTag.Latin
  let hasNative := ws.any (· ∈ nativeScripts)
  if hasLatin ∧ hasNative then ⟨.mixed, mkRat 17 20, .smartCheckpointFallback, none⟩
  else if hasLatin ∧ hint ∈ nativeLangs then
    let r := cmDetectRomanized textLower
    ⟨.romanizedIndic, max r.2 (mkRat 7 10), .smartCheckpointFallback, some r.1⟩
  else if hasLatin ∧ hint = ("en").toList then
    let ec := countEnglishMarkers textLower
    if 2 ≤ ec then ⟨.pureEnglish, mkRat 3 4, .smartCheckpointFallback, none⟩
    else
      let r := cmDetectRomanized textLower
      if r.2 > mkRat 3 10 then ⟨.romanizedIndic, r.2, .smartCheckpointFallback, some r.1⟩
      else ⟨.ambiguous, mkRat 1 2, .smartCheckpointFallback, none⟩
  else ⟨.ambiguous, mkRat 1 2, .smartCheckpointFallback, none⟩

/-- `CodeMixDetector.detect` (with `use_smart_checkpoint=True`, as the
pipeline calls it). -/
def cmDetect (text : Str) (tags : List ScriptTag)
    (hint : Str) (conf : ℚ) : CMResult :=
  let r := detectHeuristic text tags hint conf
  if r.label = .pureNative ∨ r.label = .pureEnglish then r
  else if r.label = .ambiguous then
    let ml := classifySmartCheckpoint text tags hint
    if ml.conf > mkRat 3 5 then ml else r
  else r

/-- `CodeMixDetector.should_skip_step5`. -/
def shouldSkipStep5 (label : CMLabel) (conf : ℚ) : Bool :=
  if label = .pureNative ∧ conf ≥ mkRat 3 4 then true
  else if label = .pureEnglish then decide (conf ≥ mkRat 3 4)
  else false

/-! ## Step 5 transliteration (src/backend/preprocess_eng/transliteration.py)

The remote IndicXlit service is a parameter `client`; the embedded
`step5Process` records in `clientCalled` whether
`transliteration_client.transliterate` is reached. -/

/-- Python `dict.get(x, d)` with an explicit default. -/
def alistGetD {α β : Type} [DecidableEq α] (A : List (α × β)) (x : α) (d : β) : β :=
  (alookup A x).getD d

def LANGUAGE_NAME_TO_ISO : List (Str × Str) :=
  ([("hindi", "hi"), ("bengali", "bn"), ("tamil", "ta"), ("telugu", "te"),
    ("marathi", "mr"), ("gujarati", "gu"), ("kannada", "kn"), ("malayalam", "ml"),
    ("punjabi", "pa"), ("assamese", "as"), ("odia", "or"), ("urdu", "ur"),
    ("sindhi", "sd"), ("kashmiri", "ks"), ("nepali", "ne"), ("sinhala", "si"),
    ("sanskrit", "sa"), ("konkani", "gom"), ("maithili", "mai"), ("bodo", "brx"),
    ("manipuri", "mni")] : List (String × String)).map
    (fun p => (p.1.toList, p.2.toList))

def langNormalization : List (Str × Str) :=
  ([("en", "en"), ("eng", "en"),
    ("hi", "hi"), ("bn", "bn"), ("ta", "ta"), ("te", "te"), ("gu", "gu"),
    ("kn", "kn"), ("ml", "ml"), ("pa", "pa"), ("mr", "mr"), ("as", "as"),
    ("or", "or"), ("ur", "ur"), ("sd", "sd"), ("ks", "ks"), ("ne", "ne"),
    ("si", "si"), ("sa", "sa"), ("gom", "gom"), ("mai", "mai"), ("brx", "brx"),
    ("mni", "mni"),
    ("hin_Deva", "hi"), ("ben_Beng", "bn"), ("tam_Taml", "ta"), ("tel_Telu", "te"),
    ("guj_Gujr", "gu"), ("kan_Knda", "kn"), ("mal_Mlym", "ml"), ("pan_Guru", "pa"),
    ("mar_Deva", "mr"), ("asm_Beng", "as"), ("ori_Orya", "or"), ("urd_Arab", "ur"),
    ("nep_Deva", "ne"), ("sin_Sinh", "si"), ("san_Deva", "sa"),
    ("hi_Latn", "hi"), ("bn_Latn", "bn"), ("ta_Latn", "ta"), ("te_Latn", "te"),
    ("gu_Latn", "gu"), ("kn_Latn", "kn"), ("ml_Latn", "ml"), ("pa_Latn", "pa"),
    ("mr_Latn", "mr")] : List (String × String)).map
    (fun p => (p.1.toList, p.2.toList))

/-- Modelled from the spec: the 21 supported ISO Indic codes advertised
by the transliteration service's `GET /languages` endpoint and fetched
at startup by `Step5TransliterationPipeline.__init__`; the service
itself lives outside src/. -/
def supportedLanguages : List Str :=
  (["hi", "bn", "ta", "te", "gu", "kn", "ml", "pa", "mr", "as", "or",
    "ur", "sd", "ks", "ne", "si", "sa", "gom", "mai", "brx", "mni"] :
    List String).map String.toList

structure LangFlags where
  romanized : Bool
  native : Bool
deriving Repr, DecidableEq

structure TRResult where
  normalizedQuery : Str
  serviceUsed : Str
  clientCalled : Bool
deriving Repr, DecidableEq

/-- The resolved target language of `Step5TransliterationPipeline.process`:
the Step-4 romanized-language name (when given) mapped through
`LANGUAGE_NAME_TO_ISO`, then through the normalization table. -/
def resolveTarget (targetLang : Str) (romanizedLanguage : Option Str) : Str :=
  let t0 := match romanizedLanguage with
    | some rl => alistGetD LANGUAGE_NAME_TO_ISO (lowerL rl) targetLang
    | none => targetLang
  alistGetD langNormalization t0 t0

/-- `Step5TransliterationPipeline.process`. -/
def step5Process (client : Str → Str → Str) (query : Str) (flags : LangFlags)
    (targetLang : Str) (romanizedLanguage : Option Str) : TRResult :=
  let target := resolveTarget targetLang romanizedLanguage
  if flags.native ∧ ¬ flags.romanized then
    ⟨query, ("passthrough").toList, false⟩
  else if ¬ flags.romanized ∧ ¬ flags.native then
    ⟨query, ("passthrough").toList, false⟩
  else if target = ("en").toList then
    ⟨query, ("passthrough").toList, false⟩
  else if target ∉ supportedLanguages then
    ⟨query, ("passthrough").toList, false⟩
  else
    ⟨client query target, ("ai").toList, true⟩

/-! ## Pipeline orchestrator, Steps 2-5
(src/backend/preprocess_eng/pipeline.py, `process_async`) -/

def pipelineLangMap : List (Str × Str) :=
  ([("hi", "hin_Deva"), ("hin_Deva", "hin_Deva"), ("hi_Latn", "hin_Deva"),
    ("bn", "ben_Beng"), ("ben_Beng", "ben_Beng"), ("bn_Latn", "ben_Beng"),
    ("te", "tel_Telu"), ("tel_Telu", "tel_Telu"),
    ("ta", "tam_Taml"), ("tam_Taml", "tam_Taml"),
    ("mr", "mar_Deva"), ("mar_Deva", "mar_Deva"),
    ("gu", "guj_Gujr"), ("guj_Gujr", "guj_Gujr"),
    ("kn", "kan_Knda"), ("kan_Knda", "kan_Knda"),
    ("ml", "mal_Mlym"), ("mal_Mlym", "mal_Mlym"),
    ("pa", "pan_Guru"), ("pan_Guru", "pan_Guru"),
    ("en", "hin_Deva")] : List (String × String)).map
    (fun p => (p.1.toList, p.2.toList))

def romanizedSourceCodes : List Str :=
  (["hi", "bn", "te", "ta", "mr", "gu", "kn", "ml", "pa"] :
    List String).map String.toList

/-- `OptimizedSemanticPipeline._cached_translate` (the LRU layer is
semantically transparent). -/
def cachedTranslate (client : Str → Str → Str) (text : Str)
    (sourceLang : Str) : TRResult :=
  let target := alistGetD pipelineLangMap sourceLang ("hin_Deva").toList
  let flags : LangFlags :=
    ⟨isSubstr ("_Latn").toList sourceLang || sourceLang ∈ romanizedSourceCodes,
     false⟩
  step5Process client text flags target none

/-- Step-5 routing of `process_async`: produces the english text and
whether the transliteration client was called during the request. -/
def step5Route (client : Str → Str → Str) (corrected : Str)
    (r : CMResult) (detectedLang : Str) : TRResult :=
  if r.label = .pureEnglish ∧ r.conf > mkRat 7 10 then
    ⟨corrected, ("skipped").toList, false⟩
  else if r.label = .pureNative ∧ r.conf > mkRat 17 20 then
    cachedTranslate client corrected detectedLang
  else if r.label = .romanizedIndic ∨ r.label = .mixed then
    let romLang := r.romLang.getD ("hindi").toList
    step5Process client corrected ⟨r.label = .romanizedIndic, false⟩
      ("en").toList (some romLang)
  else
    if detectedLang = ("en").toList then ⟨corrected, ("skipped").toList, false⟩
    else cachedTranslate client corrected detectedLang

/-- Steps 2-5 of one orchestrator request, starting from the Step-1
output `normalizedText`: spell correction, tokenization + LID, code-mix
detection, transliteration routing. -/
def pipelineSteps2to5 (ft : Str → Str × ℚ) (freq : Str → RomScores)
    (client : Str → Str → Str) (normalizedText : Str) :
    CMResult × TRResult :=
  let corrected := correct normalizedText
  let s3 := tokenizeStep3 ft freq corrected
  let cm := cmDetect corrected s3.tags s3.lang s3.conf
  (cm, step5Route client corrected cm s3.lang)

/-! ## InputHandler (src/backend/preprocess_eng/input_handler.py)

The URL expander (`requests` HEAD with redirects) and the product
scraper are external collaborators, passed as parameters.  The product
cache is explicit state (an insertion-ordered association list, the
model of a Python dict). -/

structure Product where
  name : Str
  specs : List (Str × Str)
  price : Option Str
  category : Option Str
  brand : Option Str
  rating : Option Str
deriving Repr, DecidableEq

/-- A minimal product record (used by closed witnesses). -/
def emptyProduct : Product := ⟨("x").toList, [], none, none, none, none⟩

/-- `InputHandler._product_to_text`. -/
def productToText (p : Product) : Str :=
  let parts : List Str :=
    (if p.name ≠ [] then [p.name] else []) ++
    (p.specs.filterMap (fun kv =>
      if kv.2 ≠ [] then some (kv.1 ++ ' ' :: kv.2) else none)) ++
    (match p.price with
     | some pr => if pr ≠ [] then [("price ").toList ++ pr] else []
     | none => []) ++
    (match p.category with
     | some c => if c ≠ [] then [c] else []
     | none => []) ++
    (match p.brand with
     | some b =>
       if b ≠ [] ∧ ¬ isSubstr (lowerL b) (lowerL p.name) then [b] else []
     | none => []) ++
    (match p.rating with
     | some r => if r ≠ [] then [("rating ").toList ++ r] else []
     | none => [])
  joinSP parts

def urlShorteners : List Str :=
  (["bit.ly", "tinyurl.com", "goo.gl", "t.co", "ow.ly",
    "is.gd", "buff.ly", "adf.ly", "short.io", "rb.gy"] :
    List String).map String.toList

/-- `InputHandler._looks_like_url_fast`. -/
def looksLikeUrlFast (t : Str) : Bool :=
  let tl := lowerL t
  startsWithL ("http://").toList tl || startsWithL ("https://").toList tl ||
  startsWithL ("www.").toList tl ||
  isSubstr (".com").toList tl || isSubstr (".in").toList tl ||
  isSubstr (".org").toList tl || isSubstr (".ly").toList tl

/-- `\.[a-z]{2,}/` with `re.IGNORECASE` (searched on the lowered text):
a dot, a maximal run of at least two letters, then a slash. -/
def hasDotTldSlash : Str → Bool
  | [] => false
  | c :: rest =>
    (c = '.' &&
      (let letters := rest.takeWhile isLowerAZ
       decide (2 ≤ letters.length) && rest.getD letters.length ' ' = '/'))
    || hasDotTldSlash rest

/-- `InputHandler._is_url`. -/
def isUrl (t : Str) : Bool :=
  let tl := lowerL t
  startsWithL ("http://").toList tl || startsWithL ("https://").toList tl ||
  startsWithL ("www.").toList tl || hasDotTldSlash tl

/-- `urlparse(u).netloc` for the URL shapes this handler sees. -/
def netloc (u : Str) : Str :=
  let sch := u.takeWhile (fun c =>
    isAlphaCh c || isDigitCh c || c = '+' || c = '-' || c = '.')
  let r :=
    if sch ≠ [] ∧ u.getD sch.length ' ' = ':' ∧ isAlphaCh (sch.headD ' ')
    then u.drop (sch.length + 1) else u
  if startsWithL ("//").toList r then
    (r.drop 2).takeWhile (fun c => c ≠ '/' ∧ c ≠ '?' ∧ c ≠ '#')
  else []

/-- `.replace("www.", "")`. -/
def stripWWW : Str → Str
  | 'w' :: 'w' :: 'w' :: '.' :: rest => stripWWW rest
  | c :: rest => c :: stripWWW rest
  | [] => []

/-- `InputHandler._is_shortened_url`. -/
def isShortenedUrl (u : Str) : Bool :=
  let dom := stripWWW (lowerL (netloc u))
  urlShorteners.any (fun s => isSubstr s dom)

def isAZ09 (c : Char) : Bool := isUpperAZ c || isDigitCh c

/-- `re.search(r"/dp/([A-Z0-9]{10})", url)`. -/
def findAsin : Str → Option Str
  | [] => none
  | l@(_ :: rest) =>
    let cand := (l.drop 4).take 10
    if startsWithL ("/dp/").toList l ∧ cand.length = 10 ∧ cand.all isAZ09
    then some cand
    else findAsin rest

/-- `re.search(r"pid=([A-Z0-9]+)", url)`. -/
def findFlipkartPid : Str → Option Str
  | [] => none
  | l@(_ :: rest) =>
    let cand := (l.drop 4).takeWhile isAZ09
    if startsWithL ("pid=").toList l ∧ cand ≠ [] then some cand
    else findFlipkartPid rest

/-- `re.search(r"/(\d+)/buy", url)`. -/
def findMyntraPid : Str → Option Str
  | [] => none
  | '/' :: rest =>
    let ds := rest.takeWhile isDigitCh
    if ds ≠ [] ∧ startsWithL ("/buy").toList (rest.drop ds.length) then some ds
    else findMyntraPid rest
  | _ :: rest => findMyntraPid rest

/-- `InputHandler._extract_platform_info`. -/
def extractPlatformInfo (url : Str) : Option Str × Option Str :=
  let dom := stripWWW (lowerL (netloc url))
  if isSubstr ("amazon").toList dom then
    (some (("amazon").toList), findAsin url)
  else if isSubstr ("flipkart").toList dom then
    (some (("flipkart").toList), findFlipkartPid url)
  else if isSubstr ("myntra").toList dom then
    (some (("myntra").toList), findMyntraPid url)
  else if isSubstr ("snapdeal").toList dom then
    (some (("snapdeal").toList), none)
  else if isSubstr ("ajio").toList dom then
    (some (("ajio").toList), none)
  else if isSubstr ("meesho").toList dom then
    (some (("meesho").toList), none)
  else (none, none)

/-- Scheme completion in `_expand_url`. -/
def withScheme (u : Str) : Str :=
  if startsWithL ("http").toList u then u else ("https://").toList ++ u

/-- `InputHandler._expand_url`: prepend a scheme when missing, follow
redirects through `expander` (`none` models a request failure, which
returns the input unchanged). -/
def expandUrl (expander : Str → Option Str) (shortUrl : Str) : Str :=
  (expander (withScheme shortUrl)).getD (withScheme shortUrl)

/-- Association-list upsert: a Python dict assignment (replaces in
place, appends new keys at the end). -/
def upsert (cache : List (Str × Product)) (k : Str) (v : Product) :
    List (Str × Product) :=
  if (alookup cache k).isSome then
    cache.map (fun p => if p.1 = k then (k, v) else p)
  else cache ++ [(k, v)]

/-- `InputHandler._cache_product`: FIFO-evict the oldest-inserted entry
when the cache already holds `_cache_max_size = 1000` entries, then
insert. -/
def cacheProduct (cache : List (Str × Product)) (k : Str) (v : Product) :
    List (Str × Product) :=
  if 1000 ≤ cache.length then upsert (cache.drop 1) k v
  else upsert cache k v

/-- `InputHandler._scrape_product_url`: the scraper result is kept only
when it carries a truthy `name`. -/
def scrapeProductUrl (scraper : Str → Option Product) (url : Str) :
    Option Product :=
  match scraper url with
  | some p => if p.name ≠ [] then some p else none
  | none => none

/-- `f"{platform}:{product_id}"` with `product_id` rendered as Python
renders `None`. -/
def cacheKeyOf (platform : Str) (pid : Option Str) : Str :=
  platform ++ ':' :: (match pid with | some p => p | none => ("None").toList)

structure ProcessedInput where
  inputType : Str
  queryText : Str
  platform : Option Str
  productId : Option Str
  productData : Option Product
  expandedUrl : Option Str
  cacheHit : Option Bool
deriving Repr, DecidableEq

/-- The fast-path result for plain text queries. -/
def textResult (ui : Str) : ProcessedInput :=
  ⟨("text").toList, ui, none, none, none, none, none⟩

/-- The cache pre-check of `process` performed on the original URL
before any expansion (requires truthy platform and product id). -/
def quickCacheHit (cache : List (Str × Product)) (ui : Str) :
    Option (Str × Str × Product) :=
  match extractPlatformInfo ui with
  | (some plat, some pid) =>
    if plat ≠ [] ∧ pid ≠ [] then
      (alookup cache (cacheKeyOf plat (some pid))).map
        (fun prod => (plat, pid, prod))
    else none
  | _ => none

/-- The platform branch of `process`: cached product, else scrape. -/
def inputProcessPlat (scraper : Str → Option Product)
    (cache : List (Str × Product)) (expanded : Str)
    (plat : Str) (pid : Option Str) : ProcessedInput × List (Str × Product) :=
  match alookup cache (cacheKeyOf plat pid) with
  | some prod =>
    (⟨("url").toList, productToText prod, some plat, pid,
      some prod, some expanded, some true⟩, cache)
  | none =>
    match scrapeProductUrl scraper expanded with
    | some prod =>
      (⟨("url").toList, productToText prod, some plat, pid,
        some prod, some expanded, some false⟩,
       cacheProduct cache (cacheKeyOf plat pid) prod)
    | none =>
      (⟨("url").toList, expanded, some plat, pid, none,
        some expanded, some false⟩, cache)

/-- The URL slow path of `process`. -/
def inputProcessUrl (expander : Str → Option Str)
    (scraper : Str → Option Product) (cache : List (Str × Product))
    (ui : Str) : ProcessedInput × List (Str × Product) :=
  match quickCacheHit cache ui with
  | some (plat, pid, prod) =>
    (⟨("url").toList, productToText prod, some plat, some pid,
      some prod, some ui, some true⟩, cache)
  | none =>
    match extractPlatformInfo
        (if isShortenedUrl ui then expandUrl expander ui else ui) with
    | (some plat, pid) =>
      inputProcessPlat scraper cache
        (if isShortenedUrl ui then expandUrl expander ui else ui) plat pid
    | (none, pid) =>
      (⟨("url").toList,
        (if isShortenedUrl ui then expandUrl expander ui else ui), none, pid,
        none, some (if isShortenedUrl ui then expandUrl expander ui else ui),
        none⟩, cache)

/-- `InputHandler.process`. -/
def inputProcess (expander : Str → Option Str) (scraper : Str → Option Product)
    (cache : List (Str × Product)) (userInput : Str) :
    ProcessedInput × List (Str × Product) :=
  if ¬ looksLikeUrlFast (stripWS userInput) then
    (textResult (stripWS userInput), cache)
  else if ¬ isUrl (stripWS userInput) then
    (textResult (stripWS userInput), cache)
  else inputProcessUrl expander scraper cache (stripWS userInput)

/-! ## Named model instances used by closed counterexamples and
witnesses -/

/-- A fastText stub reporting Bengali at 0.9 (the native-script branch
of the LID hands native Bengali text to fastText; 0.9 is a typical
confidence, cf. the spec's `bn 0.92` example). -/
def ftBn : Str → Str × ℚ := fun _ => (("bn").toList, mkRat 9 10)

/-- A fastText stub that is never consulted on the inputs it is used
with. -/
def ftStub : Str → Str × ℚ := fun _ => (("xx").toList, 0)

/-- A trivial character-frequency analysis (all similarities zero),
satisfying `FreqBounds`. -/
def freqZero : Str → RomScores := fun _ => ⟨0, 0, 0⟩

/-- A transliteration client stub returning its input. -/
def idClient : Str → Str → Str := fun q _ => q

/-! # Theorems -/

theorem char_ofNat_toNat (c : Char) : Char.ofNat c.toNat = c := by
  have h : c.toNat.isValidChar := c.valid
  unfold Char.ofNat
  rw [dif_pos h]
  unfold Char.ofNatAux
  exact Char.ext (UInt32.ext (by simp [UInt32.toNat, UInt32.ofNat', Char.toNat]))

theorem alookup_some {α β : Type} [DecidableEq α] {A : List (α × β)} {x : α}
    {b : β} (h : alookup A x = some b) : ∃ p ∈ A, p.1 = x ∧ p.2 = b := by
  induction A with
  | nil => simp [alookup] at h
  | cons p rest ih =>
    by_cases hp : p.1 = x
    · rw [alookup, if_pos hp] at h
      exact ⟨p, List.mem_cons_self p rest, hp, Option.some.inj h⟩
    · rw [alookup, if_neg hp] at h
      obtain ⟨q, hq, h1, h2⟩ := ih h
      exact ⟨q, List.mem_cons_of_mem _ hq, h1, h2⟩

theorem alistGet_cases {α : Type} [DecidableEq α] (A : List (α × α)) (x : α) :
    alistGet A x = x ∨ ∃ p ∈ A, p.1 = x ∧ alistGet A x = p.2 := by
  unfold alistGet
  cases h : alookup A x with
  | none => left; rfl
  | some v =>
    obtain ⟨p, hp, h1, h2⟩ := alookup_some h
    exact Or.inr ⟨p, hp, h1, by simp [h, h2]⟩

theorem joinSP_ne_nil (t : Str) (ts : List Str) (h : t ≠ []) :
    joinSP (t :: ts) ≠ [] := by
  cases ts with
  | nil => simpa [joinSP] using h
  | cons t2 rest => simp [joinSP]

theorem mkRat_three_fourths : (mkRat 3 4 : ℚ) = 0.75 := by
  norm_num [Rat.mkRat_eq_divInt, Rat.divInt_eq_div]

theorem mkRat_seventeen_twentieths : (mkRat 17 20 : ℚ) = 0.85 := by
  norm_num [Rat.mkRat_eq_divInt, Rat.divInt_eq_div]

theorem mkRat_seven_tenths : (mkRat 7 10 : ℚ) = 0.70 := by
  norm_num [Rat.mkRat_eq_divInt, Rat.divInt_eq_div]

theorem mkRat_nineteen_twentieths : (mkRat 19 20 : ℚ) = 0.95 := by
  norm_num [Rat.mkRat_eq_divInt, Rat.divInt_eq_div]

/-- C2: the derived skip flag is true exactly for `pure_english` with
confidence ≥ 0.75 or `pure_native` with confidence ≥ 0.75, and false
for `romanized_indic`, `mixed` and `ambiguous`. -/
theorem C2_skip_flag_iff (label : CMLabel) (conf : ℚ) :
    (shouldSkipStep5 label conf = true ↔
      ((label = .pureEnglish ∧ 0.75 ≤ conf) ∨
       (label = .pureNative ∧ 0.75 ≤ conf))) ∧
    (label = .romanizedIndic ∨ label = .mixed ∨ label = .ambiguous →
      shouldSkipStep5 label conf = false) := by
  unfold shouldSkipStep5
  rw [mkRat_three_fourths]
  rcases label <;> simp [ge_iff_le]

/-- C4 counterexample: with all word-script tokens Latin and the LID
reporting `en` at exactly 0.85 (= 17/20), the Fast Lane does NOT emit
`pure_english` (the source compares with a strict `>`): it returns
`ambiguous` via method `heuristic`. -/
theorem C4_fast_lane_at_085 :
    (mkRat 17 20 : ℚ) = 0.85 ∧
    (detectHeuristic (("headphone").toList) [.Latin] (("en").toList)
        (mkRat 17 20)).label ≠ .pureEnglish ∧
    detectHeuristic (("headphone").toList) [.Latin] (("en").toList) (mkRat 17 20)
      = ⟨.ambiguous, mkRat 1 2, .heuristic, none⟩ := by
  refine ⟨mkRat_seventeen_twentieths, ?_, ?_⟩
  · decide
  · decide

/-- Fast Lane Rule B, factored: all word-script tokens Latin, LID `en`
strictly above 17/20 → `pure_english` at the LID confidence. -/
theorem ruleB_fastLane (text : Str) (tags : List ScriptTag) (conf : ℚ)
    (htext : text ≠ []) (hws : wordScripts tags ≠ [])
    (hlatin : ∀ s ∈ wordScripts tags, s = .Latin)
    (hconf : mkRat 17 20 < conf) :
    detectHeuristic text tags (("en").toList) conf
      = ⟨.pureEnglish, conf, .fastLane, none⟩ := by
  have htags : tags ≠ [] := by
    intro h; rw [h] at hws; exact hws rfl
  obtain ⟨s0, hs0⟩ : ∃ s, s ∈ wordScripts tags :=
    List.exists_mem_of_ne_nil _ hws
  have hnotnat : ¬ ((wordScripts tags).all (· ∈ nativeScripts) = true) := by
    intro hall
    have := List.all_eq_true.mp hall s0 hs0
    rw [hlatin s0 hs0] at this
    simp [nativeScripts] at this
  have hall : (wordScripts tags).all (· = ScriptTag.Latin) = true := by
    exact List.all_eq_true.mpr (fun s hs => by simp [hlatin s hs])
  unfold detectHeuristic
  rw [if_neg, if_neg, if_neg, if_pos]
  · exact ⟨hall, rfl, hconf⟩
  · intro hc; exact hnotnat hc.1
  · exact hws
  · intro hc; rcases hc with h | h
    · exact htext h
    · exact htags h

/-- C4 (amended): for a non-empty query with at least one word-script
token, all of whose word-script tokens are Latin, and LID `en` with
confidence STRICTLY greater than 0.85, the Fast Lane emits
`pure_english` at the LID confidence with method `fast_lane`. -/
theorem C4_fast_lane_rule_b (text : Str) (tags : List ScriptTag) (conf : ℚ)
    (htext : text ≠ []) (hws : wordScripts tags ≠ [])
    (hlatin : ∀ s ∈ wordScripts tags, s = .Latin) (hconf : (0.85 : ℚ) < conf) :
    detectHeuristic text tags (("en").toList) conf
      = ⟨.pureEnglish, conf, .fastLane, none⟩ := by
  rw [← mkRat_seventeen_twentieths] at hconf
  exact ruleB_fastLane text tags conf htext hws hlatin hconf

/-- C4 witness: Rule B fires at confidence 0.9 on a Latin token. -/
theorem C4_fast_lane_rule_b_witness :
    detectHeuristic (("headphone").toList) [.Latin] (("en").toList) 0.9
      = ⟨.pureEnglish, 0.9, .fastLane, none⟩ :=
  C4_fast_lane_rule_b (("headphone").toList) [.Latin] 0.9
    (by decide) (by decide) (by decide) (by norm_num)

/-- C6: `Step5TransliterationPipeline.process` passes the query through
unchanged, without calling the client, whenever the flags say native and
not romanized, or neither romanized nor native, or the target resolves
to English, or the normalized target is not among the supported Indic
codes. -/
theorem C6_process_passthrough (client : Str → Str → Str) (query : Str)
    (flags : LangFlags) (target : Str) (roman : Option Str)
    (h : (flags.native = true ∧ flags.romanized = false) ∨
         (flags.romanized = false ∧ flags.native = false) ∨
         resolveTarget target roman = ("en").toList ∨
         resolveTarget target roman ∉ supportedLanguages) :
    step5Process client query flags target roman
      = ⟨query, ("passthrough").toList, false⟩ := by
  unfold step5Process
  rcases h with ⟨hn, hr⟩ | ⟨hr, hn⟩ | he | hs
  · rw [if_pos]; exact ⟨hn, by simp [hr]⟩
  · by_cases h1 : flags.native = true ∧ ¬ flags.romanized = true
    · rw [if_pos h1]
    · rw [if_neg h1, if_pos]; exact ⟨by simp [hr], by simp [hn]⟩
  · by_cases h1 : flags.native = true ∧ ¬ flags.romanized = true
    · rw [if_pos h1]
    · rw [if_neg h1]
      by_cases h2 : ¬ flags.romanized = true ∧ ¬ flags.native = true
      · rw [if_pos h2]
      · rw [if_neg h2, if_pos he]
  · by_cases h1 : flags.native = true ∧ ¬ flags.romanized = true
    · rw [if_pos h1]
    · rw [if_neg h1]
      by_cases h2 : ¬ flags.romanized = true ∧ ¬ flags.native = true
      · rw [if_pos h2]
      · rw [if_neg h2]
        by_cases h3 : resolveTarget target roman = ("en").toList
        · rw [if_pos h3]
        · rw [if_neg h3, if_pos hs]

/-- C6 witness: a native, non-romanized query passes through. -/
theorem C6_process_passthrough_witness :
    step5Process idClient (("আমাকে দেখাও").toList) ⟨false, true⟩
      (("bn").toList) none
      = ⟨("আমাকে দেখাও").toList, ("passthrough").toList, false⟩ :=
  C6_process_passthrough idClient (("আমাকে দেখাও").toList) ⟨false, true⟩
    (("bn").toList) none (Or.inl ⟨rfl, rfl⟩)

/-- C1 counterexample: a pure-Bengali request is classified
`pure_native` at 0.95, so its Step-4 result has `skip_step5 == true`,
yet the orchestrator's Step-5 routing still reaches the transliteration
client's `transliterate` call (it translates native script toward
English through `_cached_translate`). -/
theorem C1_skip_but_client_called :
    shouldSkipStep5
        (pipelineSteps2to5 ftBn freqZero idClient (("আমাকে দেখাও").toList)).1.label
        (pipelineSteps2to5 ftBn freqZero idClient (("আমাকে দেখাও").toList)).1.conf
      = true ∧
    (pipelineSteps2to5 ftBn freqZero idClient (("আমাকে দেখাও").toList)).2.clientCalled
      = true := by
  constructor
  · decide
  · decide

/-- C1 (amended): a Step-4 result labelled `pure_english` whose skip
flag is true (confidence ≥ 0.75 > 0.70) never reaches the
transliteration client: the routing returns the corrected text
unchanged.  (For `pure_native` the flag is true as well, but the
orchestrator deliberately calls the translator toward English, as the
counterexample shows.) -/
theorem C1_pure_english_skip_no_client (client : Str → Str → Str)
    (corrected : Str) (r : CMResult) (lang : Str)
    (hlabel : r.label = .pureEnglish)
    (hskip : shouldSkipStep5 r.label r.conf = true) :
    (step5Route client corrected r lang).clientCalled = false ∧
    (step5Route client corrected r lang).normalizedQuery = corrected := by
  have hconf : (mkRat 3 4 : ℚ) ≤ r.conf := by
    unfold shouldSkipStep5 at hskip
    rw [hlabel] at hskip
    simpa using hskip
  have hgt : (mkRat 7 10 : ℚ) < r.conf := lt_of_lt_of_le (by decide) hconf
  unfold step5Route
  rw [if_pos ⟨hlabel, hgt⟩]
  exact ⟨rfl, rfl⟩

/-- C1 witness: a `pure_english` result at 0.9 skips the client. -/
theorem C1_pure_english_skip_no_client_witness :
    (step5Route idClient (("wireless headphones").toList)
        ⟨.pureEnglish, mkRat 9 10, .fastLane, none⟩ (("en").toList)).clientCalled
      = false ∧
    (step5Route idClient (("wireless headphones").toList)
        ⟨.pureEnglish, mkRat 9 10, .fastLane, none⟩
        (("en").toList)).normalizedQuery
      = ("wireless headphones").toList :=
  C1_pure_english_skip_no_client idClient (("wireless headphones").toList)
    ⟨.pureEnglish, mkRat 9 10, .fastLane, none⟩ (("en").toList) rfl (by decide)

theorem upsert_length (cache : List (Str × Product)) (k : Str) (v : Product) :
    (upsert cache k v).length = cache.length ∨
    (upsert cache k v).length = cache.length + 1 := by
  unfold upsert
  split
  · left; simp
  · right; simp

/-- C9: `_cache_product` preserves the 1,000-entry bound, and when the
cache is full it first evicts the head of the insertion-ordered cache,
i.e. the oldest-inserted entry (FIFO). -/
theorem C9_cache_bound (cache : List (Str × Product)) (k : Str) (v : Product)
    (h : cache.length ≤ 1000) :
    (cacheProduct cache k v).length ≤ 1000 ∧
    (cache.length = 1000 →
      cacheProduct cache k v = upsert (List.drop 1 cache) k v) := by
  constructor
  · unfold cacheProduct
    split
    · rename_i hfull
      have hd : (cache.drop 1).length = cache.length - 1 := by simp
      rcases upsert_length (cache.drop 1) k v with h1 | h1 <;> rw [h1, hd] <;> omega
    · rename_i hnot
      rcases upsert_length cache k v with h1 | h1 <;> rw [h1] <;> omega
  · intro hfull
    unfold cacheProduct
    rw [if_pos (by omega)]

/-- C9 witness: inserting into a full 1,000-entry cache respects the
bound. -/
theorem C9_cache_bound_witness :
    (cacheProduct (List.replicate 1000 ((("k").toList), emptyProduct))
        (("k2").toList) emptyProduct).length ≤ 1000 :=
  (C9_cache_bound (List.replicate 1000 ((("k").toList), emptyProduct))
    (("k2").toList) emptyProduct (by rw [List.length_replicate])).1

/-- C7 counterexample: on the empty raw input, `InputHandler.process`
returns an EMPTY `query_text`; and on `" phone "` (not a URL) the
returned `query_text` is the stripped text, not the original input. -/
theorem C7_query_text_cex :
    (inputProcess (fun _ => none) (fun _ => none) [] []).1.queryText = [] ∧
    (inputProcess (fun _ => none) (fun _ => none) []
        ((" phone ").toList)).1.inputType = ("text").toList ∧
    (inputProcess (fun _ => none) (fun _ => none) []
        ((" phone ").toList)).1.queryText ≠ (" phone ").toList := by
  refine ⟨?_, ?_, ?_⟩ <;> decide

theorem scrapeProductUrl_name (s : Str → Option Product) (u : Str)
    (p : Product) (h : scrapeProductUrl s u = some p) : p.name ≠ [] := by
  unfold scrapeProductUrl at h
  split at h
  · split at h
    · rename_i hq
      cases h
      assumption
    · cases h
  · cases h

theorem productToText_ne_nil (p : Product) (h : p.name ≠ []) :
    productToText p ≠ [] := by
  unfold productToText
  rw [if_pos h]
  exact joinSP_ne_nil p.name _ h

theorem withScheme_ne_nil (u : Str) (hu : u ≠ []) : withScheme u ≠ [] := by
  unfold withScheme
  split
  · exact hu
  · simp

theorem expandUrl_ne_nil (e : Str → Option Str)
    (hexp : ∀ u r, e u = some r → r ≠ []) (u : Str) (hu : u ≠ []) :
    expandUrl e u ≠ [] := by
  unfold expandUrl
  cases he : e (withScheme u) with
  | none => simpa [he] using withScheme_ne_nil u hu
  | some r => simpa [he] using hexp _ r he

theorem quickCacheHit_mem (cache : List (Str × Product)) (ui : Str)
    (plat pid : Str) (prod : Product)
    (h : quickCacheHit cache ui = some (plat, pid, prod)) :
    ∃ pp ∈ cache, pp.2 = prod := by
  unfold quickCacheHit at h
  split at h
  · split at h
    · rename_i p q heq hpq
      cases ha : alookup cache (cacheKeyOf p (some q)) with
      | none => rw [ha] at h; cases h
      | some pr =>
        rw [ha] at h
        obtain ⟨pp, hpp, _, h2⟩ := alookup_some ha
        refine ⟨pp, hpp, ?_⟩
        injection h with h3
        have h4 : (p, q, pr) = (plat, pid, prod) := h3
        injection h4 with e1 h5
        injection h5 with e2 e3
        rw [h2, e3]
    · cases h
  · cases h

theorem inputProcessPlat_spec (s : Str → Option Product)
    (cache : List (Str × Product)) (expanded : Str) (plat : Str)
    (pid : Option Str) (hc : ∀ p ∈ cache, p.2.name ≠ [])
    (hne : expanded ≠ []) :
    (inputProcessPlat s cache expanded plat pid).1.inputType = ("url").toList ∧
    (inputProcessPlat s cache expanded plat pid).1.expandedUrl = some expanded ∧
    ((inputProcessPlat s cache expanded plat pid).1.productData = none →
      (inputProcessPlat s cache expanded plat pid).1.queryText = expanded) ∧
    (inputProcessPlat s cache expanded plat pid).1.queryText ≠ [] := by
  unfold inputProcessPlat
  cases ha : alookup cache (cacheKeyOf plat pid) with
  | some prod =>
    obtain ⟨pp, hpp, _, h2⟩ := alookup_some ha
    refine ⟨rfl, rfl, fun hpd => ?_, productToText_ne_nil prod (h2 ▸ hc pp hpp)⟩
    exact absurd hpd (by simp)
  | none =>
    cases hs : scrapeProductUrl s expanded with
    | some prod =>
      refine ⟨rfl, rfl, fun hpd => ?_,
        productToText_ne_nil prod (scrapeProductUrl_name s expanded prod hs)⟩
      exact absurd hpd (by simp)
    | none => exact ⟨rfl, rfl, fun _ => rfl, hne⟩

theorem inputProcessUrl_spec (e : Str → Option Str)
    (s : Str → Option Product) (cache : List (Str × Product)) (ui : Str)
    (hexp : ∀ u r, e u = some r → r ≠ [])
    (hc : ∀ p ∈ cache, p.2.name ≠ []) (hui : ui ≠ []) :
    (inputProcessUrl e s cache ui).1.inputType = ("url").toList ∧
    ((inputProcessUrl e s cache ui).1.productData = none →
      some ((inputProcessUrl e s cache ui).1.queryText)
        = (inputProcessUrl e s cache ui).1.expandedUrl) ∧
    (inputProcessUrl e s cache ui).1.queryText ≠ [] := by
  have hexpd : (if isShortenedUrl ui then expandUrl e ui else ui) ≠ [] := by
    split
    · exact expandUrl_ne_nil e hexp ui hui
    · exact hui
  unfold inputProcessUrl
  cases hq : quickCacheHit cache ui with
  | some trip =>
    obtain ⟨plat, pid, prod⟩ := trip
    obtain ⟨pp, hpp, h2⟩ := quickCacheHit_mem cache ui plat pid prod hq
    refine ⟨rfl, fun hpd => ?_, productToText_ne_nil prod (h2 ▸ hc pp hpp)⟩
    exact absurd hpd (by simp)
  | none =>
    cases hp : extractPlatformInfo
        (if isShortenedUrl ui then expandUrl e ui else ui) with
    | mk platOpt pid =>
      cases platOpt with
      | some plat =>
        obtain ⟨u1, u2, u3, u4⟩ :=
          inputProcessPlat_spec s cache
            (if isShortenedUrl ui then expandUrl e ui else ui) plat pid hc hexpd
        exact ⟨u1, fun hpd => by rw [u3 hpd, u2], u4⟩
      | none => exact ⟨rfl, fun _ => rfl, hexpd⟩

/-- C7 (amended): `query_text` equals the whitespace-STRIPPED input
whenever the input is not classified as a URL; for URL inputs without
product data it equals the expanded URL; and it is non-empty whenever
the stripped input is non-empty, provided URL expansion yields
non-empty URLs and every cached product has a non-empty name (as every
product stored by the handler does). -/
theorem C7_query_text (e : Str → Option Str) (s : Str → Option Product)
    (cache : List (Str × Product)) (input : Str)
    (hexp : ∀ u r, e u = some r → r ≠ [])
    (hcache : ∀ p ∈ cache, p.2.name ≠ []) :
    ((inputProcess e s cache input).1.inputType = ("text").toList →
       (inputProcess e s cache input).1.queryText = stripWS input) ∧
    ((inputProcess e s cache input).1.inputType = ("url").toList ∧
       (inputProcess e s cache input).1.productData = none →
       some ((inputProcess e s cache input).1.queryText)
         = (inputProcess e s cache input).1.expandedUrl) ∧
    (stripWS input ≠ [] → (inputProcess e s cache input).1.queryText ≠ []) := by
  unfold inputProcess
  by_cases h1 : looksLikeUrlFast (stripWS input)
  case neg =>
    rw [if_pos (by simpa using h1)]
    exact ⟨fun _ => rfl, fun hc => by simp [textResult] at hc, fun hne => hne⟩
  case pos =>
    rw [if_neg (by simpa using h1)]
    have hui : stripWS input ≠ [] := by
      intro hnil
      rw [hnil] at h1
      exact absurd h1 (by decide)
    by_cases h2 : isUrl (stripWS input)
    case neg =>
      rw [if_pos (by simpa using h2)]
      exact ⟨fun _ => rfl, fun hc => by simp [textResult] at hc, fun hne => hne⟩
    case pos =>
      rw [if_neg (by simpa using h2)]
      obtain ⟨u1, u2, u3⟩ := inputProcessUrl_spec e s cache (stripWS input)
        hexp hcache hui
      refine ⟨fun ht => ?_, fun hc => u2 hc.2, fun _ => u3⟩
      rw [u1] at ht
      exact absurd ht (by decide)

/-- C7 witness: a plain text query with whitespace around it. -/
theorem C7_query_text_witness :
    ((inputProcess (fun _ => none) (fun _ => none) []
        ((" phone ").toList)).1.inputType = ("text").toList →
      (inputProcess (fun _ => none) (fun _ => none) []
        ((" phone ").toList)).1.queryText = stripWS ((" phone ").toList)) ∧
    ((inputProcess (fun _ => none) (fun _ => none) []
        ((" phone ").toList)).1.inputType = ("url").toList ∧
      (inputProcess (fun _ => none) (fun _ => none) []
        ((" phone ").toList)).1.productData = none →
      some ((inputProcess (fun _ => none) (fun _ => none) []
        ((" phone ").toList)).1.queryText)
        = (inputProcess (fun _ => none) (fun _ => none) []
            ((" phone ").toList)).1.expandedUrl) ∧
    (stripWS ((" phone ").toList) ≠ [] →
      (inputProcess (fun _ => none) (fun _ => none) []
        ((" phone ").toList)).1.queryText ≠ []) :=
  C7_query_text (fun _ => none) (fun _ => none) [] ((" phone ").toList)
    (fun _ _ h => nomatch h) (fun _ hp => nomatch hp)

/-! ### Pre-tokenizer lemmas (for C3) -/

theorem pretokAux_props (l : Str) : ∀ (cur : Str),
    (∀ c ∈ cur, isWS c = false) →
    ∀ t ∈ pretokAux l cur,
      t ≠ [] ∧ ∀ c ∈ t, (c ∈ l ∨ c ∈ cur) ∧ isWS c = false := by
  induction l with
  | nil =>
    intro cur hcur t ht
    unfold pretokAux at ht
    by_cases hcn : cur = []
    · rw [if_pos hcn] at ht
      cases ht
    · rw [if_neg hcn] at ht
      rw [List.mem_singleton] at ht
      subst ht
      refine ⟨by simpa using hcn, fun c hc => ?_⟩
      rw [List.mem_reverse] at hc
      exact ⟨Or.inr hc, hcur c hc⟩
  | cons a rest ih =>
    intro cur hcur t ht
    unfold pretokAux at ht
    have hRest : ∀ t ∈ pretokAux rest [],
        t ≠ [] ∧ ∀ c ∈ t, (c ∈ a :: rest ∨ c ∈ cur) ∧ isWS c = false := by
      intro t' ht'
      obtain ⟨h1, h2⟩ := ih [] (by simp) t' ht'
      exact ⟨h1, fun c hc =>
        ⟨Or.inl (List.mem_cons_of_mem a ((h2 c hc).1.resolve_right (by simp))),
         (h2 c hc).2⟩⟩
    have hCur : ∀ c ∈ cur.reverse, (c ∈ a :: rest ∨ c ∈ cur) ∧ isWS c = false := by
      intro c hc
      rw [List.mem_reverse] at hc
      exact ⟨Or.inr hc, hcur c hc⟩
    by_cases hws : isWS a
    · rw [if_pos hws] at ht
      by_cases hcn : cur = []
      · rw [if_pos hcn] at ht
        exact hRest t ht
      · rw [if_neg hcn] at ht
        rcases List.mem_cons.mp ht with ht | ht
        · subst ht
          exact ⟨by simpa using hcn, hCur⟩
        · exact hRest t ht
    · rw [if_neg hws] at ht
      by_cases hword : isWordChar a
      · rw [if_pos hword] at ht
        obtain ⟨h1, h2⟩ := ih (a :: cur)
          (by
            intro c hc
            rcases List.mem_cons.mp hc with h | h
            · subst h; simpa using hws
            · exact hcur c h) t ht
        refine ⟨h1, fun c hc => ?_⟩
        obtain ⟨hmem, hw⟩ := h2 c hc
        rcases hmem with h | h
        · exact ⟨Or.inl (List.mem_cons_of_mem a h), hw⟩
        · rcases List.mem_cons.mp h with h | h
          · exact ⟨Or.inl (by rw [h]; exact List.mem_cons_self a rest), hw⟩
          · exact ⟨Or.inr h, hw⟩
      · rw [if_neg hword] at ht
        have hSingle : ([a] : Str) ≠ [] ∧
            ∀ c ∈ ([a] : Str), (c ∈ a :: rest ∨ c ∈ cur) ∧ isWS c = false := by
          refine ⟨by simp, fun c hc => ?_⟩
          rw [List.mem_singleton] at hc
          exact ⟨Or.inl (by rw [hc]; exact List.mem_cons_self a rest),
            by rw [hc]; simpa using hws⟩
        by_cases hcn : cur = []
        · rw [if_pos hcn] at ht
          rcases List.mem_cons.mp ht with ht | ht
          · subst ht; exact hSingle
          · exact hRest t ht
        · rw [if_neg hcn] at ht
          rcases List.mem_cons.mp ht with ht | ht
          · subst ht
            exact ⟨by simpa using hcn, hCur⟩
          · rcases List.mem_cons.mp ht with ht | ht
            · subst ht; exact hSingle
            · exact hRest t ht

theorem pretokenize_props (text : Str) (t : Str) (ht : t ∈ pretokenize text) :
    t ≠ [] ∧ ∀ c ∈ t, c ∈ text ∧ isWS c = false := by
  obtain ⟨h1, h2⟩ := pretokAux_props text [] (by simp) t ht
  exact ⟨h1, fun c hc =>
    ⟨((h2 c hc).1).resolve_right (by simp), (h2 c hc).2⟩⟩

theorem pretokAux_cur_covered (l : Str) : ∀ (cur : Str), cur ≠ [] →
    ∃ t ∈ pretokAux l cur, ∀ x ∈ cur, x ∈ t := by
  induction l with
  | nil =>
    intro cur hcur
    refine ⟨cur.reverse, ?_, fun x hx => by simpa using hx⟩
    unfold pretokAux
    rw [if_neg hcur]
    exact List.mem_singleton.mpr rfl
  | cons a rest ih =>
    intro cur hcur
    unfold pretokAux
    by_cases hws : isWS a
    · rw [if_pos hws, if_neg hcur]
      exact ⟨cur.reverse, List.mem_cons_self _ _, fun x hx => by simpa using hx⟩
    · rw [if_neg hws]
      by_cases hword : isWordChar a
      · rw [if_pos hword]
        obtain ⟨t, ht, hall⟩ := ih (a :: cur) (by simp)
        exact ⟨t, ht, fun x hx => hall x (List.mem_cons_of_mem a hx)⟩
      · rw [if_neg hword, if_neg hcur]
        exact ⟨cur.reverse, List.mem_cons_self _ _, fun x hx => by simpa using hx⟩

theorem pretokAux_covers (l : Str) : ∀ (cur : Str) (c : Char), c ∈ l →
    isWS c = false → isWordChar c = true →
    ∃ t ∈ pretokAux l cur, c ∈ t := by
  induction l with
  | nil => intro cur c hc; cases hc
  | cons a rest ih =>
    intro cur c hc hws hword
    unfold pretokAux
    rcases List.mem_cons.mp hc with rfl | hc
    · rw [if_neg (by simpa using hws), if_pos hword]
      obtain ⟨t, ht, hall⟩ := pretokAux_cur_covered rest (c :: cur) (by simp)
      exact ⟨t, ht, hall c (List.mem_cons_self _ _)⟩
    · by_cases haws : isWS a
      · rw [if_pos haws]
        split
        · exact ih [] c hc hws hword
        · obtain ⟨t, ht, htc⟩ := ih [] c hc hws hword
          exact ⟨t, List.mem_cons_of_mem _ ht, htc⟩
      · rw [if_neg haws]
        by_cases haword : isWordChar a
        · rw [if_pos haword]
          exact ih (a :: cur) c hc hws hword
        · rw [if_neg haword]
          obtain ⟨t, ht, htc⟩ := ih [] c hc hws hword
          split
          · exact ⟨t, List.mem_cons_of_mem _ ht, htc⟩
          · exact ⟨t, List.mem_cons_of_mem _ (List.mem_cons_of_mem _ ht), htc⟩

/-! ### Character and tagging lemmas (for C3) -/

theorem alpha_not_ws (c : Char) (h : isAlphaCh c = true) : isWS c = false := by
  by_contra hws
  rw [Bool.not_eq_false] at hws
  unfold isWS at hws
  simp only [Bool.or_eq_true, decide_eq_true_eq] at hws
  rcases hws with ((((h1 | h1) | h1) | h1) | h1) | h1 <;> subst h1 <;>
    simp [isAlphaCh, isLowerAZ, isUpperAZ] at h

theorem alpha_word (c : Char) (h : isAlphaCh c = true) : isWordChar c = true := by
  simp [isWordChar, h]

theorem alpha_not_digit (c : Char) (h : isAlphaCh c = true) :
    isDigitCh c = false := by
  simp only [isAlphaCh, isLowerAZ, isUpperAZ, Bool.or_eq_true,
    Bool.and_eq_true, decide_eq_true_eq] at h
  simp only [isDigitCh, Bool.and_eq_false_iff, decide_eq_false_iff_not,
    not_le]
  omega

theorem lower_pyLower_alpha (c : Char) (h : isLowerAZ (pyLower c) = true) :
    isAlphaCh c = true := by
  rcases alistGet_cases lowerPairs c with hc | ⟨p, hp, h1, h2⟩
  · unfold pyLower at h
    rw [hc] at h
    simp [isAlphaCh, h]
  · have hall : lowerPairs.all (fun q => isAlphaCh q.1) = true := by decide
    have hup := List.all_eq_true.mp hall p hp
    rw [← h1]
    simpa using hup

theorem isSubstr_head_mem (c : Char) (p l : Str)
    (h : isSubstr (c :: p) l = true) : c ∈ l := by
  induction l with
  | nil => simp [isSubstr] at h
  | cons a rest ih =>
    unfold isSubstr at h
    rw [Bool.or_eq_true] at h
    rcases h with h | h
    · unfold startsWithL at h
      rw [Bool.and_eq_true, decide_eq_true_eq] at h
      rw [h.1]
      exact List.mem_cons_self a rest
    · exact List.mem_cons_of_mem a (ih h)

theorem ascii_tag_latin (tok : Str) (h0 : tok ≠ [])
    (hchars : ∀ c ∈ tok, c.toNat < 128)
    (c : Char) (hc : c ∈ tok) (halpha : isAlphaCh c = true) :
    tagTok tok = .Latin := by
  cases tok with
  | nil => exact absurd rfl h0
  | cons c0 rest =>
    have h128 : c0.toNat < 128 := hchars c0 (List.mem_cons_self c0 rest)
    have hnd : patDigits (c0 :: rest) = false := by
      by_contra hd
      rw [Bool.not_eq_false] at hd
      unfold patDigits at hd
      rw [Bool.and_eq_true] at hd
      have := List.all_eq_true.mp hd.2 c hc
      rw [alpha_not_digit c halpha] at this
      cases this
    have hdef : tagTok (c0 :: rest) =
        if c0.toNat < 128 then
          (if patDigits (c0 :: rest) then ScriptTag.Number else ScriptTag.Latin)
        else if 0x0900 ≤ c0.toNat ∧ c0.toNat ≤ 0x097F then ScriptTag.Devanagari
        else if 0x0980 ≤ c0.toNat ∧ c0.toNat ≤ 0x09FF then ScriptTag.Bengali
        else detectTokenScript (c0 :: rest) := rfl
    rw [hdef, if_pos h128, if_neg (by simp [hnd])]

theorem ascii_tag_cases (tok : Str) (h0 : tok ≠ [])
    (hchars : ∀ c ∈ tok, c.toNat < 128) :
    tagTok tok = .Number ∨ tagTok tok = .Latin := by
  cases tok with
  | nil => exact absurd rfl h0
  | cons c0 rest =>
    have h128 : c0.toNat < 128 := hchars c0 (List.mem_cons_self c0 rest)
    have hdef : tagTok (c0 :: rest) =
        if c0.toNat < 128 then
          (if patDigits (c0 :: rest) then ScriptTag.Number else ScriptTag.Latin)
        else if 0x0900 ≤ c0.toNat ∧ c0.toNat ≤ 0x097F then ScriptTag.Devanagari
        else if 0x0980 ≤ c0.toNat ∧ c0.toNat ≤ 0x09FF then ScriptTag.Bengali
        else detectTokenScript (c0 :: rest) := rfl
    rw [hdef, if_pos h128]
    by_cases hd : patDigits (c0 :: rest) = true
    · rw [if_pos hd]; exact Or.inl rfl
    · rw [if_neg hd]; exact Or.inr rfl

/-- C3 counterexample: `"mujhe chahiye wireless headphone"` contains no
Indic (indeed no non-ASCII) characters and two core English product
markers ("wireless", "headphone"), yet language identification returns
`hi` (via the romanized-marker fast path that precedes the English fast
path), not `en`. -/
theorem C3_markers_but_hindi :
    ((("mujhe chahiye wireless headphone").toList).all
        (fun c => isWS c || decide (c.toNat < 128)) = true) ∧
    2 ≤ (englishIndicators.countP
        (fun w => isSubstr w (lowerL (("mujhe chahiye wireless headphone").toList)))) ∧
    (detectScriptUncached ftStub freqZero
        (("mujhe chahiye wireless headphone").toList)).1 = ("hi").toList ∧
    ("hi").toList ≠ ("en").toList := by
  refine ⟨?_, ?_, ?_, ?_⟩ <;> decide

/-- C3 (amended): for any input all of whose non-whitespace characters
are ASCII (hence without Indic characters), in which at least two core
English product markers occur and no romanized Hindi/Bengali marker
word occurs, language identification returns `en` at 0.95 and the
code-mix classifier (fed the Step-3 outputs, as the orchestrator does)
labels the query `pure_english`. -/
theorem C3_english_fast_path (ft : Str → Str × ℚ) (freq : Str → RomScores)
    (text : Str)
    (hascii : text.all (fun c => isWS c || decide (c.toNat < 128)) = true)
    (hmark : 2 ≤ (englishIndicators.countP (fun w => isSubstr w (lowerL text))))
    (hhm : (splitWS (lowerL text)).countP (· ∈ hindiMarkerWords) = 0)
    (hbm : (splitWS (lowerL text)).countP (· ∈ bengaliMarkerWords) = 0) :
    detectScriptUncached ft freq text = ((("en").toList), mkRat 19 20) ∧
    (mkRat 19 20 : ℚ) = 0.95 ∧
    (cmDetect text (tokenizeStep3 ft freq text).tags
        (tokenizeStep3 ft freq text).lang (tokenizeStep3 ft freq text).conf).label
      = .pureEnglish := by
  -- a marker word occurs, so the text contains a Latin letter
  have hany : ∃ w ∈ englishIndicators, isSubstr w (lowerL text) = true := by
    have : 0 < englishIndicators.countP (fun w => isSubstr w (lowerL text)) := by
      omega
    obtain ⟨w, hw, hsub⟩ := List.countP_pos_iff.mp this
    exact ⟨w, hw, hsub⟩
  obtain ⟨w, hw, hsub⟩ := hany
  have hwprops : w ≠ [] ∧ isLowerAZ (w.headD ' ') = true := by
    have hallw : englishIndicators.all
        (fun v => !v.isEmpty && isLowerAZ (v.headD ' ')) = true := by decide
    have hw2 := List.all_eq_true.mp hallw w hw
    rw [Bool.and_eq_true] at hw2
    refine ⟨fun h0 => ?_, hw2.2⟩
    rw [h0] at hw2
    simp at hw2
  obtain ⟨c, hcmem⟩ : ∃ c, c ∈ lowerL text ∧ isLowerAZ c = true := by
    cases hwn : w with
    | nil => exact absurd hwn hwprops.1
    | cons c0 w' =>
      refine ⟨c0, isSubstr_head_mem c0 w' (lowerL text) (hwn ▸ hsub), ?_⟩
      have := hwprops.2
      rw [hwn] at this
      simpa using this
  obtain ⟨c0, hc0text, hc0low⟩ : ∃ c0, c0 ∈ text ∧ pyLower c0 = c := by
    obtain ⟨c0, h1, h2⟩ := List.mem_map.mp hcmem.1
    exact ⟨c0, h1, h2⟩
  have hc0alpha : isAlphaCh c0 = true :=
    lower_pyLower_alpha c0 (by rw [hc0low]; exact hcmem.2)
  have htext : text ≠ [] := by
    intro h0
    rw [h0] at hc0text
    cases hc0text
  -- the LID takes the English fast path
  have hlid : detectScriptUncached ft freq text = ((("en").toList), mkRat 19 20) := by
    unfold detectScriptUncached
    rw [if_neg (by simpa using htext)]
    rw [if_neg (by omega)]
    rw [if_pos]
    refine ⟨?_, hascii, hhm, hbm⟩
    rw [List.any_eq_true]
    exact ⟨w, hw, hsub⟩
  refine ⟨hlid, by norm_num [Rat.mkRat_eq_divInt, Rat.divInt_eq_div], ?_⟩
  -- the classifier's Fast Lane Rule B fires
  have hs3 : tokenizeStep3 ft freq text =
      ⟨pretokenize text, (pretokenize text).map tagTok,
       ("en").toList, mkRat 19 20⟩ := by
    unfold tokenizeStep3
    rw [if_neg htext, hlid]
  rw [hs3]
  -- token facts
  obtain ⟨tokc, htokc, hctokc⟩ :=
    pretokAux_covers text [] c0 hc0text (alpha_not_ws c0 hc0alpha)
      (alpha_word c0 hc0alpha)
  have hchars : ∀ t ∈ pretokenize text, t ≠ [] ∧ ∀ ch ∈ t, ch.toNat < 128 := by
    intro t ht
    obtain ⟨h1, h2⟩ := pretokenize_props text t ht
    refine ⟨h1, fun ch hch => ?_⟩
    obtain ⟨hmem, hnws⟩ := h2 ch hch
    have := List.all_eq_true.mp hascii ch hmem
    rw [hnws] at this
    simpa using this
  have htagLatin : tagTok tokc = .Latin := by
    obtain ⟨h1, h2⟩ := hchars tokc htokc
    exact ascii_tag_latin tokc h1 h2 c0 hctokc hc0alpha
  have hlatin_mem : ScriptTag.Latin ∈ (pretokenize text).map tagTok := by
    rw [List.mem_map]
    exact ⟨tokc, htokc, htagLatin⟩
  have hws_ne : wordScripts ((pretokenize text).map tagTok) ≠ [] := by
    intro h0
    have : ScriptTag.Latin ∈ wordScripts ((pretokenize text).map tagTok) := by
      unfold wordScripts
      rw [List.mem_filter]
      exact ⟨hlatin_mem, by decide⟩
    rw [h0] at this
    cases this
  have hws_latin : ∀ s ∈ wordScripts ((pretokenize text).map tagTok),
      s = ScriptTag.Latin := by
    intro s hs
    unfold wordScripts at hs
    rw [List.mem_filter] at hs
    obtain ⟨hs1, hs2⟩ := hs
    obtain ⟨t, ht, hts⟩ := List.mem_map.mp hs1
    obtain ⟨h1, h2⟩ := hchars t ht
    rcases ascii_tag_cases t h1 h2 with hn | hl
    · rw [← hts, hn] at hs2
      simp at hs2
    · rw [← hts]; exact hl
  have hheur : detectHeuristic text ((pretokenize text).map tagTok)
      (("en").toList) (mkRat 19 20)
      = ⟨.pureEnglish, mkRat 19 20, .fastLane, none⟩ :=
    ruleB_fastLane text ((pretokenize text).map tagTok) (mkRat 19 20)
      htext hws_ne hws_latin (by decide)
  unfold cmDetect
  rw [hheur]
  rfl

/-- C3 witness: the English fast path on `"wireless headphone under 5000"`. -/
theorem C3_english_fast_path_witness :
    detectScriptUncached ftStub freqZero (("wireless headphone under 5000").toList)
      = ((("en").toList), mkRat 19 20) ∧
    (mkRat 19 20 : ℚ) = 0.95 ∧
    (cmDetect (("wireless headphone under 5000").toList)
        (tokenizeStep3 ftStub freqZero (("wireless headphone under 5000").toList)).tags
        (tokenizeStep3 ftStub freqZero (("wireless headphone under 5000").toList)).lang
        (tokenizeStep3 ftStub freqZero (("wireless headphone under 5000").toList)).conf).label
      = .pureEnglish :=
  C3_english_fast_path ftStub freqZero (("wireless headphone under 5000").toList)
    (by decide) (by decide) (by decide) (by decide)

/-! ### Smart romanized detector bounds (for C8) -/

theorem mkRat_one_fourth : (mkRat 1 4 : ℚ) = 1/4 := by
  norm_num [Rat.mkRat_eq_divInt, Rat.divInt_eq_div]

theorem mkRat_one_tenth : (mkRat 1 10 : ℚ) = 1/10 := by
  norm_num [Rat.mkRat_eq_divInt, Rat.divInt_eq_div]

theorem mkRat_thirteen_twentieths : (mkRat 13 20 : ℚ) = 13/20 := by
  norm_num [Rat.mkRat_eq_divInt, Rat.divInt_eq_div]

theorem mkRat_three_twentieths : (mkRat 3 20 : ℚ) = 3/20 := by
  norm_num [Rat.mkRat_eq_divInt, Rat.divInt_eq_div]

theorem mkRat_three_tenths : (mkRat 3 10 : ℚ) = 3/10 := by
  norm_num [Rat.mkRat_eq_divInt, Rat.divInt_eq_div]

theorem mkRat_nat_mem (k n : ℕ) (h : k ≤ n) :
    0 ≤ (mkRat (k : ℤ) n : ℚ) ∧ (mkRat (k : ℤ) n : ℚ) ≤ 1 := by
  rw [Rat.mkRat_eq_divInt, Rat.divInt_eq_div]
  rcases Nat.eq_zero_or_pos n with h0 | h0
  · subst h0
    norm_num
  · have hn : (0:ℚ) < ((n : ℤ) : ℚ) := by exact_mod_cast h0
    constructor
    · positivity
    · rw [div_le_one hn]
      exact_mod_cast h

theorem analyzeCoreWords_bounds (words : List Str) :
    (0 ≤ (analyzeCoreWords words).hi ∧ (analyzeCoreWords words).hi ≤ 1) ∧
    (0 ≤ (analyzeCoreWords words).bn ∧ (analyzeCoreWords words).bn ≤ 1) ∧
    (0 ≤ (analyzeCoreWords words).en ∧ (analyzeCoreWords words).en ≤ 1) := by
  unfold analyzeCoreWords
  split
  · norm_num
  · refine ⟨?_, ?_, ?_⟩ <;> dsimp only
    · split
      · rw [mkRat_one_fourth]
        constructor
        · exact le_min (by norm_num) (by positivity)
        · exact min_le_left _ _
      · norm_num
    · split
      · rw [mkRat_one_fourth]
        constructor
        · exact le_min (by norm_num) (by positivity)
        · exact min_le_left _ _
      · norm_num
    · split
      · norm_num
      · rw [mkRat_one_tenth]; norm_num

theorem analyzeNgrams_bounds (text : Str) :
    (0 ≤ (analyzeNgrams text).hi ∧ (analyzeNgrams text).hi ≤ 1) ∧
    (0 ≤ (analyzeNgrams text).bn ∧ (analyzeNgrams text).bn ≤ 1) ∧
    (0 ≤ (analyzeNgrams text).en ∧ (analyzeNgrams text).en ≤ 1) := by
  simp only [analyzeNgrams]
  split
  · norm_num
  · split
    · set bs := (windows2 text).filter (fun w => w.all isAlphaCh) with hbs
      set ts := (windows3 text).filter (fun w => w.all isAlphaCh) with hts
      have hh := mkRat_nat_mem
        (bs.countP (· ∈ hindiBigrams) + ts.countP (· ∈ hindiTrigrams))
        (bs.length + ts.length)
        (Nat.add_le_add (List.countP_le_length _) (List.countP_le_length _))
      have hb := mkRat_nat_mem
        (bs.countP (· ∈ bengaliBigrams) + ts.countP (· ∈ bengaliTrigrams))
        (bs.length + ts.length)
        (Nat.add_le_add (List.countP_le_length _) (List.countP_le_length _))
      refine ⟨⟨hh.1, hh.2⟩, ⟨hb.1, hb.2⟩, ?_, ?_⟩
      · dsimp only
        have := max_le hh.2 hb.2
        linarith
      · dsimp only
        have h1 := le_max_left
          ((mkRat (bs.countP (· ∈ hindiBigrams) + ts.countP (· ∈ hindiTrigrams) : ℕ) (bs.length + ts.length) : ℚ))
          ((mkRat (bs.countP (· ∈ bengaliBigrams) + ts.countP (· ∈ bengaliTrigrams) : ℕ) (bs.length + ts.length) : ℚ))
        linarith [hh.1]
    · norm_num

theorem analyzePhonetic_bounds (text : Str) :
    (0 ≤ (analyzePhonetic text).hi ∧ (analyzePhonetic text).hi ≤ 1) ∧
    (0 ≤ (analyzePhonetic text).bn ∧ (analyzePhonetic text).bn ≤ 1) ∧
    (0 ≤ (analyzePhonetic text).en ∧ (analyzePhonetic text).en ≤ 1) := by
  simp only [analyzePhonetic]
  split
  · norm_num
  · set ws := (splitWS text).filter
      (fun w => !w.isEmpty && w.all isAlphaCh && decide (w.length > 2)) with hws
    have hh := mkRat_nat_mem (ws.countP hindiWordPattern) ws.length
      (List.countP_le_length _)
    have hb := mkRat_nat_mem (ws.countP bengaliWordPattern) ws.length
      (List.countP_le_length _)
    refine ⟨⟨hh.1, hh.2⟩, ⟨hb.1, hb.2⟩, ?_, ?_⟩
    · dsimp only
      have := max_le hh.2 hb.2
      linarith
    · dsimp only
      have h1 := le_max_left
        ((mkRat (ws.countP hindiWordPattern : ℕ) ws.length : ℚ))
        ((mkRat (ws.countP bengaliWordPattern : ℕ) ws.length : ℚ))
      linarith [hh.1]

theorem smartScores_bounds (freq : Str → RomScores) (hfreq : FreqBounds freq)
    (t : Str) :
    (0 ≤ (smartScores freq t).hi ∧ (smartScores freq t).hi ≤ 1) ∧
    (0 ≤ (smartScores freq t).bn ∧ (smartScores freq t).bn ≤ 1) ∧
    (0 ≤ (smartScores freq t).en ∧ (smartScores freq t).en ≤ 1) := by
  obtain ⟨⟨w1, w2⟩, ⟨w3, w4⟩, w5, w6⟩ := analyzeCoreWords_bounds (splitWS t)
  obtain ⟨⟨n1, n2⟩, ⟨n3, n4⟩, n5, n6⟩ := analyzeNgrams_bounds t
  obtain ⟨⟨p1, p2⟩, ⟨p3, p4⟩, p5, p6⟩ := analyzePhonetic_bounds t
  obtain ⟨f1, f2, f3, f4, f5, f6⟩ := hfreq t
  simp only [smartScores, mkRat_thirteen_twentieths, mkRat_three_twentieths,
    mkRat_one_tenth]
  refine ⟨⟨?_, ?_⟩, ⟨?_, ?_⟩, ?_, ?_⟩ <;> linarith

theorem smartArgmax_cases (s : RomScores) :
    smartArgmax s = ("en").toList ∨ smartArgmax s = ("bn_Latn").toList ∨
    smartArgmax s = ("hi_Latn").toList := by
  unfold smartArgmax
  split
  · left; rfl
  · split
    · right; left; rfl
    · right; right; rfl

theorem smartChoose_cases (s : RomScores) :
    smartChoose s = ((("en").toList), s.en) ∨
    smartChoose s = ((("hi_Latn").toList), s.hi) ∨
    smartChoose s = ((("bn_Latn").toList), s.bn) := by
  simp only [smartChoose]
  by_cases h1 : smartArgmax s = ("en").toList
  · rw [if_pos h1]
    split
    · split
      · right; left; rfl
      · right; right; rfl
    · left
      rw [h1]
  · rw [if_neg h1]
    by_cases h2 : smartArgmax s = ("bn_Latn").toList
    · rw [if_pos h2, h2]
      right; right; rfl
    · rw [if_neg h2]
      rcases smartArgmax_cases s with h | h | h
      · exact absurd h h1
      · exact absurd h h2
      · rw [h]
        right; left; rfl

/-- C8: the smart romanized detector either abstains with `(none, 0)` or
returns a non-English label (`hi_Latn` or `bn_Latn`) whose confidence
lies in `[0.30, 1]`; and whenever the best Indic combined score is
positive and the English combined score exceeds it by at most `0.15`,
the chosen label is not `en`. -/
theorem C8_smart_detector (freq : Str → RomScores) (hfreq : FreqBounds freq)
    (text : Str) (s : RomScores)
    (hind : 0 < max s.hi s.bn) (hclose : s.en - max s.hi s.bn ≤ mkRat 3 20) :
    (smartDetect freq text = (none, 0) ∨
      (∃ conf, (smartDetect freq text = (some (("hi_Latn").toList), conf) ∨
                smartDetect freq text = (some (("bn_Latn").toList), conf)) ∧
        mkRat 3 10 ≤ conf ∧ conf ≤ 1)) ∧
    (smartChoose s).1 ≠ ("en").toList := by
  constructor
  · simp only [smartDetect]
    split
    · left; rfl
    · split
      · left; rfl
      · obtain ⟨⟨s1, s2⟩, ⟨s3, s4⟩, -, -⟩ :=
          smartScores_bounds freq hfreq (lowerL text)
        rcases smartChoose_cases (smartScores freq (lowerL text)) with hc | hc | hc
          <;> rw [hc]
        · left
          rw [if_neg]
          intro h
          exact h.2 rfl
        · by_cases hg : mkRat 3 10 ≤ (smartScores freq (lowerL text)).hi
          · right
            refine ⟨(smartScores freq (lowerL text)).hi, Or.inl ?_, hg, s2⟩
            rw [if_pos ⟨hg, show ("hi_Latn").toList ≠ ("en").toList by decide⟩]
          · left
            rw [if_neg (fun h => hg h.1)]
        · by_cases hg : mkRat 3 10 ≤ (smartScores freq (lowerL text)).bn
          · right
            refine ⟨(smartScores freq (lowerL text)).bn, Or.inr ?_, hg, s4⟩
            rw [if_pos ⟨hg, show ("bn_Latn").toList ≠ ("en").toList by decide⟩]
          · left
            rw [if_neg (fun h => hg h.1)]
  · simp only [smartChoose]
    by_cases h1 : smartArgmax s = ("en").toList
    · rw [if_pos h1, if_pos ⟨hind, hclose⟩]
      split
      · show ("hi_Latn").toList ≠ ("en").toList
        decide
      · show ("bn_Latn").toList ≠ ("en").toList
        decide
    · rw [if_neg h1]
      by_cases h2 : smartArgmax s = ("bn_Latn").toList
      · rw [if_pos h2, h2]
        show ("bn_Latn").toList ≠ ("en").toList
        decide
      · rw [if_neg h2]
        rcases smartArgmax_cases s with h | h | h
        · exact absurd h h1
        · exact absurd h h2
        · rw [h]
          show ("hi_Latn").toList ≠ ("en").toList
          decide

/-- C8 witness: a concrete Bengali romanized query and a concrete score
triple with a close English score. -/
theorem C8_smart_detector_witness :
    (smartDetect freqZero (("amake 2000 taka damer earphone dekhao").toList)
        = (none, 0) ∨
      (∃ conf, (smartDetect freqZero (("amake 2000 taka damer earphone dekhao").toList)
            = (some (("hi_Latn").toList), conf) ∨
          smartDetect freqZero (("amake 2000 taka damer earphone dekhao").toList)
            = (some (("bn_Latn").toList), conf)) ∧
        mkRat 3 10 ≤ conf ∧ conf ≤ 1)) ∧
    (smartChoose ⟨mkRat 1 2, mkRat 3 5, mkRat 7 10⟩).1 ≠ ("en").toList :=
  C8_smart_detector freqZero
    (fun t => by constructor <;> norm_num [freqZero])
    (("amake 2000 taka damer earphone dekhao").toList)
    ⟨mkRat 1 2, mkRat 3 5, mkRat 7 10⟩
    (by decide)
    (by
      have h1 : (max (mkRat 1 2) (mkRat 3 5) : ℚ) = mkRat 3 5 := by decide
      rw [h1]
      norm_num [Rat.mkRat_eq_divInt, Rat.divInt_eq_div])

/-! ### Split/join infrastructure (for C5 and C10) -/

theorem map_eq_self {α : Type} (l : List α) (f : α → α)
    (h : ∀ a ∈ l, f a = a) : l.map f = l := by
  induction l with
  | nil => rfl
  | cons a rest ih =>
    rw [List.map_cons, h a (List.mem_cons_self a rest),
      ih (fun b hb => h b (List.mem_cons_of_mem a hb))]

theorem splitAux_props (l : Str) : ∀ (cur : Str),
    (∀ c ∈ cur, isWS c = false) →
    ∀ t ∈ splitAux l cur, t ≠ [] ∧ ∀ c ∈ t, isWS c = false ∧ (c ∈ l ∨ c ∈ cur) := by
  induction l with
  | nil =>
    intro cur hcur t ht
    unfold splitAux at ht
    by_cases hc : cur = []
    · rw [if_pos hc] at ht
      cases ht
    · rw [if_neg hc] at ht
      have ht' : t = cur.reverse := List.mem_singleton.mp ht
      subst ht'
      refine ⟨by simpa using hc, fun c hct => ?_⟩
      have hcc : c ∈ cur := List.mem_reverse.mp hct
      exact ⟨hcur c hcc, Or.inr hcc⟩
  | cons a rest ih =>
    intro cur hcur t ht
    unfold splitAux at ht
    by_cases hw : isWS a = true
    · rw [if_pos hw] at ht
      by_cases hc : cur = []
      · rw [if_pos hc] at ht
        have h := ih [] (fun c hc' => absurd hc' (List.not_mem_nil c)) t ht
        refine ⟨h.1, fun c hct => ⟨(h.2 c hct).1, ?_⟩⟩
        rcases (h.2 c hct).2 with h1 | h1
        · exact Or.inl (List.mem_cons_of_mem a h1)
        · cases h1
      · rw [if_neg hc] at ht
        rcases List.mem_cons.mp ht with ht1 | ht1
        · subst ht1
          refine ⟨by simpa using hc, fun c hct => ?_⟩
          have hcc : c ∈ cur := List.mem_reverse.mp hct
          exact ⟨hcur c hcc, Or.inr hcc⟩
        · have h := ih [] (fun c hc' => absurd hc' (List.not_mem_nil c)) t ht1
          refine ⟨h.1, fun c hct => ⟨(h.2 c hct).1, ?_⟩⟩
          rcases (h.2 c hct).2 with h1 | h1
          · exact Or.inl (List.mem_cons_of_mem a h1)
          · cases h1
    · rw [if_neg hw] at ht
      rw [Bool.not_eq_true] at hw
      have h := ih (a :: cur)
        (fun c hc' => by
          rcases List.mem_cons.mp hc' with h1 | h1
          · rw [h1]; exact hw
          · exact hcur c h1) t ht
      refine ⟨h.1, fun c hct => ⟨(h.2 c hct).1, ?_⟩⟩
      rcases (h.2 c hct).2 with h1 | h1
      · exact Or.inl (List.mem_cons_of_mem a h1)
      · rcases List.mem_cons.mp h1 with h2 | h2
        · rw [h2]; exact Or.inl (List.mem_cons_self a rest)
        · exact Or.inr h2

theorem splitAux_single (t : Str) : ∀ (cur : Str),
    (∀ c ∈ t, isWS c = false) → cur.reverse ++ t ≠ [] →
    splitAux t cur = [cur.reverse ++ t] := by
  induction t with
  | nil =>
    intro cur _ hne
    unfold splitAux
    rw [if_neg (fun h0 => hne (by simp [h0]))]
    simp
  | cons c ts ih =>
    intro cur hws hne
    unfold splitAux
    rw [if_neg (by simp [hws c (List.mem_cons_self c ts)])]
    rw [ih (c :: cur) (fun d hd => hws d (List.mem_cons_of_mem c hd)) (by simp)]
    simp

theorem splitAux_break (t J : Str) : ∀ (cur : Str),
    (∀ c ∈ t, isWS c = false) → cur.reverse ++ t ≠ [] →
    splitAux (t ++ ' ' :: J) cur = (cur.reverse ++ t) :: splitAux J [] := by
  induction t with
  | nil =>
    intro cur _ hne
    show (if isWS ' ' = true then
        (if cur = [] then splitAux J [] else cur.reverse :: splitAux J [])
      else splitAux J (' ' :: cur)) = (cur.reverse ++ []) :: splitAux J []
    rw [if_pos (by decide)]
    rw [if_neg (fun h0 => hne (by simp [h0]))]
    simp
  | cons c ts ih =>
    intro cur hws hne
    show (if isWS c = true then
        (if cur = [] then splitAux (ts ++ ' ' :: J) []
         else cur.reverse :: splitAux (ts ++ ' ' :: J) [])
      else splitAux (ts ++ ' ' :: J) (c :: cur))
        = (cur.reverse ++ c :: ts) :: splitAux J []
    rw [if_neg (by simp [hws c (List.mem_cons_self c ts)])]
    rw [ih (c :: cur) (fun d hd => hws d (List.mem_cons_of_mem c hd)) (by simp)]
    simp

theorem splitWS_joinSP (toks : List Str)
    (h : ∀ t ∈ toks, t ≠ [] ∧ ∀ c ∈ t, isWS c = false) :
    splitWS (joinSP toks) = toks := by
  induction toks with
  | nil => rfl
  | cons t rest ih =>
    cases rest with
    | nil =>
      show splitAux t [] = [t]
      rw [splitAux_single t []
        (fun c hc => (h t (List.mem_cons_self t [])).2 c hc)
        (by simpa using (h t (List.mem_cons_self t [])).1)]
      simp
    | cons t2 rest2 =>
      show splitAux (t ++ ' ' :: joinSP (t2 :: rest2)) [] = t :: t2 :: rest2
      rw [splitAux_break t (joinSP (t2 :: rest2)) []
        (fun c hc => (h t (List.mem_cons_self t _)).2 c hc)
        (by simpa using (h t (List.mem_cons_self t _)).1)]
      simp only [List.reverse_nil, List.nil_append]
      congr 1
      exact ih (fun u hu => h u (List.mem_cons_of_mem _ hu))

theorem joinSP_chars (toks : List Str) (c : Char) (hc : c ∈ joinSP toks) :
    c = ' ' ∨ ∃ t ∈ toks, c ∈ t := by
  induction toks with
  | nil => cases hc
  | cons t rest ih =>
    cases rest with
    | nil => exact Or.inr ⟨t, List.mem_cons_self t [], hc⟩
    | cons t2 rest2 =>
      have hc' : c ∈ t ++ ' ' :: joinSP (t2 :: rest2) := hc
      rcases List.mem_append.mp hc' with h1 | h1
      · exact Or.inr ⟨t, List.mem_cons_self t _, h1⟩
      · rcases List.mem_cons.mp h1 with h2 | h2
        · exact Or.inl h2
        · rcases ih h2 with h3 | ⟨u, hu, hcu⟩
          · exact Or.inl h3
          · exact Or.inr ⟨u, List.mem_cons_of_mem _ hu, hcu⟩

/-! ### Case folding (for C5 and C10) -/

theorem pyLower_not_upper (c : Char) : isUpperAZ (pyLower c) = false := by
  by_cases hu : isUpperAZ c = true
  · obtain ⟨h1, h2⟩ : 65 ≤ c.toNat ∧ c.toNat ≤ 90 := by
      simpa [isUpperAZ] using hu
    rw [← char_ofNat_toNat c]
    interval_cases h : c.toNat <;> decide
  · rcases alistGet_cases lowerPairs c with h | ⟨p, hp, h1, h2⟩
    · show isUpperAZ (alistGet lowerPairs c) = false
      rw [h]
      exact Bool.not_eq_true _ ▸ hu
    · show isUpperAZ (alistGet lowerPairs c) = false
      rw [h2]
      have hall : lowerPairs.all (fun q => !isUpperAZ q.2) = true := by decide
      have := List.all_eq_true.mp hall p hp
      simpa using this

theorem pyLower_fix (c : Char) (h : isUpperAZ c = false) : pyLower c = c := by
  rcases alistGet_cases lowerPairs c with h1 | ⟨p, hp, h1, h2⟩
  · exact h1
  · exfalso
    have hall : lowerPairs.all (fun q => isUpperAZ q.1) = true := by decide
    have hk := List.all_eq_true.mp hall p hp
    rw [h1, h] at hk
    cases hk

theorem lowerL_fix (t : Str) (h : ∀ c ∈ t, isUpperAZ c = false) :
    lowerL t = t :=
  map_eq_self t pyLower (fun c hc => pyLower_fix c (h c hc))

theorem lowerL_chars_not_upper (t : Str) (c : Char) (hc : c ∈ lowerL t) :
    isUpperAZ c = false := by
  obtain ⟨c0, -, h⟩ := List.mem_map.mp hc
  rw [← h]
  exact pyLower_not_upper c0

theorem lowerL_idem (t : Str) : lowerL (lowerL t) = lowerL t :=
  lowerL_fix (lowerL t) (lowerL_chars_not_upper t)

/-! ### SymSpell structure (for C5 and C10) -/

theorem foldl_min_mem (c : Str × ℕ × ℕ) (cs : List (Str × ℕ × ℕ)) :
    cs.foldl (fun best x =>
      if x.2.1 < best.2.1 ∨ (x.2.1 = best.2.1 ∧ best.2.2 < x.2.2) then x
      else best) c ∈ c :: cs := by
  induction cs generalizing c with
  | nil => exact List.mem_singleton.mpr rfl
  | cons d ds ih =>
    rw [List.foldl_cons]
    have h := ih (if d.2.1 < c.2.1 ∨ (d.2.1 = c.2.1 ∧ c.2.2 < d.2.2) then d else c)
    rcases List.mem_cons.mp h with h1 | h1
    · rw [h1]
      split
      · exact List.mem_cons_of_mem _ (List.mem_cons_self _ _)
      · exact List.mem_cons_self _ _
    · exact List.mem_cons_of_mem _ (List.mem_cons_of_mem _ h1)

theorem cands_fst_mem (t : Str) (x : Str × ℕ × ℕ)
    (hx : x ∈ dictEntries.filterMap (fun e =>
      let d := osaDist t e.1
      if d ≤ 2 then some (e.1, d, e.2) else none)) : x.1 ∈ dictTerms := by
  obtain ⟨e, he, hee⟩ := List.mem_filterMap.mp hx
  dsimp only at hee
  split at hee
  · rw [← Option.some.inj hee]
    exact List.mem_map.mpr ⟨e, he, rfl⟩
  · cases hee

theorem symspell_shape (t : Str) :
    symspellCorrect t = t ∨ symspellCorrect t ∈ dictTerms := by
  by_cases hd : t ∈ dictTerms
  · unfold symspellCorrect
    rw [if_pos hd]
    exact Or.inl rfl
  · unfold symspellCorrect
    rw [if_neg hd]
    cases hc : dictEntries.filterMap (fun e =>
        let d := osaDist t e.1
        if d ≤ 2 then some (e.1, d, e.2) else none) with
    | nil => exact Or.inl rfl
    | cons c cs =>
      right
      have hmem := foldl_min_mem c cs
      rw [← hc] at hmem
      exact cands_fst_mem t _ hmem

theorem symspell_fix_dict (d : Str) (hd : d ∈ dictTerms) :
    symspellCorrect d = d := by
  unfold symspellCorrect
  rw [if_pos hd]

theorem correctTok_shape (t : Str) :
    correctTok t = t ∨ correctTok t ∈ dictTerms := by
  unfold correctTok
  split
  · exact Or.inl rfl
  · exact symspell_shape t

theorem correctTok_fix_dict (d : Str) (hd : d ∈ dictTerms) :
    correctTok d = d := by
  unfold correctTok
  split
  · rfl
  · exact symspell_fix_dict d hd

theorem correctTok_idem (t : Str) : correctTok (correctTok t) = correctTok t := by
  rcases correctTok_shape t with h | h
  · rw [h]
    exact h
  · exact correctTok_fix_dict _ h

/-! ### Rewrite/unit table facts (for C5 and C10) -/

theorem rwTok_val_fix (p : Str × Str) (hp : p ∈ rwRules) : rwTok p.2 = p.2 := by
  have hall : rwRules.all (fun q => decide (rwTok q.2 = q.2)) = true := by decide
  have := List.all_eq_true.mp hall p hp
  exact of_decide_eq_true this

theorem rwTok_dict_fix (d : Str) (hd : d ∈ dictTerms) : rwTok d = d := by
  have hall : dictTerms.all (fun q => decide (rwTok q = q)) = true := by decide
  exact of_decide_eq_true (List.all_eq_true.mp hall d hd)

theorem rwTok_idem (w : Str) : rwTok (rwTok w) = rwTok w := by
  rcases alistGet_cases rwRules w with h1 | ⟨p, hp, -, h2⟩
  · show rwTok (alistGet rwRules w) = alistGet rwRules w
    rw [h1]
    exact h1
  · show rwTok (alistGet rwRules w) = alistGet rwRules w
    rw [h2]
    exact rwTok_val_fix p hp

theorem wfTok_of_all (t : Str)
    (h : (!t.isEmpty && t.all (fun c => !isWS c && !isUpperAZ c)) = true) :
    wfTok t := by
  rw [Bool.and_eq_true] at h
  refine ⟨?_, fun c hc => ?_, fun c hc => ?_⟩
  · intro h0
    rw [h0] at h
    simpa using h.1
  · have := List.all_eq_true.mp h.2 c hc
    rw [Bool.and_eq_true] at this
    simpa using this.1
  · have := List.all_eq_true.mp h.2 c hc
    rw [Bool.and_eq_true] at this
    simpa using this.2

theorem word_wf (x : Str) (w : Str) (hw : w ∈ splitWS (lowerL x)) : wfTok w := by
  have h := splitAux_props (lowerL x) []
    (fun c hc => absurd hc (List.not_mem_nil c)) w hw
  refine ⟨h.1, fun c hc => (h.2 c hc).1, fun c hc => ?_⟩
  rcases (h.2 c hc).2 with h1 | h1
  · exact lowerL_chars_not_upper x c h1
  · cases h1

theorem rwTok_wf (w : Str) (h : wfTok w) : wfTok (rwTok w) := by
  rcases alistGet_cases rwRules w with h1 | ⟨p, hp, -, h2⟩
  · show wfTok (alistGet rwRules w)
    rw [h1]
    exact h
  · show wfTok (alistGet rwRules w)
    rw [h2]
    have hall : rwRules.all (fun q => !q.2.isEmpty
        && q.2.all (fun c => !isWS c && !isUpperAZ c)) = true := by decide
    exact wfTok_of_all p.2 (List.all_eq_true.mp hall p hp)

theorem dict_wf (d : Str) (hd : d ∈ dictTerms) : wfTok d := by
  have hall : dictTerms.all (fun q => !q.isEmpty
      && q.all (fun c => !isWS c && !isUpperAZ c)) = true := by decide
  exact wfTok_of_all d (List.all_eq_true.mp hall d hd)

theorem correctTok_wf (t : Str) (h : wfTok t) : wfTok (correctTok t) := by
  rcases correctTok_shape t with h1 | h1
  · rw [h1]; exact h
  · exact dict_wf _ h1

theorem normTok_wf (s : Str) (h : wfTok s) : wfTok (normTok s) := by
  rcases alistGet_cases unitRules s with h1 | ⟨p, hp, -, h2⟩
  · show wfTok (alistGet unitRules s)
    rw [h1]
    exact h
  · show wfTok (alistGet unitRules s)
    rw [h2]
    have hall : unitRules.all (fun q => !q.2.isEmpty
        && q.2.all (fun c => !isWS c && !isUpperAZ c)) = true := by decide
    exact wfTok_of_all p.2 (List.all_eq_true.mp hall p hp)

set_option maxRecDepth 16000 in
set_option maxHeartbeats 8000000 in
/-- Every token emitted by the corrector is either the literal `gram`
(the one unit-normalization output that SymSpell then rewrites) or a
fixed point of all three per-token passes. -/
theorem out_tok_cases (w : Str) :
    normTok (correctTok (rwTok w)) = ("gram").toList ∨
    (rwTok (normTok (correctTok (rwTok w))) = normTok (correctTok (rwTok w)) ∧
     correctTok (normTok (correctTok (rwTok w))) = normTok (correctTok (rwTok w)) ∧
     normTok (normTok (correctTok (rwTok w))) = normTok (correctTok (rwTok w))) := by
  rcases alistGet_cases unitRules (correctTok (rwTok w)) with h1 | ⟨p, hp, -, h2⟩
  · have hu : normTok (correctTok (rwTok w)) = correctTok (rwTok w) := h1
    rw [hu]
    right
    refine ⟨?_, correctTok_idem (rwTok w), hu⟩
    rcases correctTok_shape (rwTok w) with h | h
    · rw [h]
      exact rwTok_idem w
    · exact rwTok_dict_fix _ h
  · have hu : normTok (correctTok (rwTok w)) = p.2 := h2
    rw [hu]
    have hall : unitRules.all (fun q => decide (q.2 = ("gram").toList)
        || (decide (rwTok q.2 = q.2) && decide (correctTok q.2 = q.2)
            && decide (normTok q.2 = q.2))) = true := by
      decide
    have hq := List.all_eq_true.mp hall p hp
    simp only [Bool.or_eq_true, Bool.and_eq_true, decide_eq_true_eq] at hq
    rcases hq with h | ⟨⟨ha, hb⟩, hc⟩
    · exact Or.inl h
    · exact Or.inr ⟨ha, hb, hc⟩

/-- The corrector in normal form: lower-case, split on whitespace, pass
each word through rewrite, preserve-or-SymSpell, and unit
normalization, and re-join with single spaces. -/
theorem correct_normal_form (x : Str) :
    correct x true =
      joinSP ((splitWS (lowerL x)).map (fun w => normTok (correctTok (rwTok w)))) := by
  by_cases hx : x = []
  · subst hx
    rfl
  · have hW : ∀ w ∈ splitWS (lowerL x), wfTok w := word_wf x
    have hwf1 : ∀ u ∈ (splitWS (lowerL x)).map rwTok, wfTok u := by
      intro u hu
      obtain ⟨w, hw, h⟩ := List.mem_map.mp hu
      rw [← h]
      exact rwTok_wf w (hW w hw)
    have hsp1 : splitWS (applyRewriteRules x) = (splitWS (lowerL x)).map rwTok :=
      splitWS_joinSP _ (fun u hu => ⟨(hwf1 u hu).1, (hwf1 u hu).2.1⟩)
    have h2 : spellPass (applyRewriteRules x)
        = joinSP ((splitWS (lowerL x)).map (fun w => correctTok (rwTok w))) := by
      unfold spellPass
      rw [hsp1, List.map_map]
      rfl
    have hwf2 : ∀ u ∈ (splitWS (lowerL x)).map (fun w => correctTok (rwTok w)),
        wfTok u := by
      intro u hu
      obtain ⟨w, hw, h⟩ := List.mem_map.mp hu
      rw [← h]
      exact correctTok_wf _ (rwTok_wf w (hW w hw))
    have hlow2 : lowerL (spellPass (applyRewriteRules x))
        = spellPass (applyRewriteRules x) := by
      rw [h2]
      apply lowerL_fix
      intro c hc
      rcases joinSP_chars _ c hc with h | ⟨u, hu, hcu⟩
      · rw [h]; decide
      · exact (hwf2 u hu).2.2 c hcu
    have hsp2 : splitWS (spellPass (applyRewriteRules x))
        = (splitWS (lowerL x)).map (fun w => correctTok (rwTok w)) := by
      rw [h2]
      exact splitWS_joinSP _ (fun u hu => ⟨(hwf2 u hu).1, (hwf2 u hu).2.1⟩)
    show (if x = [] then [] else correctCached x true) = _
    rw [if_neg hx]
    show normalizeUnits (spellPass (applyRewriteRules x)) = _
    unfold normalizeUnits
    rw [hlow2, hsp2, List.map_map]
    rfl

/-- A join of tokens fixed by all three passes is a fixed point of
`correct`. -/
theorem correct_fixed_tokens (toks : List Str)
    (hwf : ∀ t ∈ toks, wfTok t)
    (hfix : ∀ t ∈ toks, rwTok t = t ∧ correctTok t = t ∧ normTok t = t) :
    correct (joinSP toks) true = joinSP toks := by
  rw [correct_normal_form (joinSP toks)]
  have hlow : lowerL (joinSP toks) = joinSP toks := by
    apply lowerL_fix
    intro c hc
    rcases joinSP_chars _ c hc with h | ⟨u, hu, hcu⟩
    · rw [h]; decide
    · exact (hwf u hu).2.2 c hcu
  rw [hlow]
  rw [splitWS_joinSP toks (fun u hu => ⟨(hwf u hu).1, (hwf u hu).2.1⟩)]
  congr 1
  apply map_eq_self
  intro u hu
  rw [(hfix u hu).1, (hfix u hu).2.1, (hfix u hu).2.2]

/-- C5 counterexample: spell correction is not idempotent.  `"gm"` is
preserved by SymSpell (length < 3) and unit-normalized to `"gram"`, but
a second pass SymSpell-corrects `"gram"` (not a dictionary term) to the
dictionary term `"ram"`. -/
theorem C5_gm_not_idempotent :
    correct (correct (("gm").toList) true) true ≠ correct (("gm").toList) true := by
  set_option maxRecDepth 8000 in decide

/-- C5 (amended): spell correction is idempotent on every input whose
corrected form does not contain the token `gram`. -/
theorem C5_idempotent_no_gram (x : Str)
    (hg : ("gram").toList ∉ splitWS (correct x true)) :
    correct (correct x true) true = correct x true := by
  have hnf := correct_normal_form x
  have hwf : ∀ u ∈ (splitWS (lowerL x)).map (fun w => normTok (correctTok (rwTok w))),
      wfTok u := by
    intro u hu
    obtain ⟨w, hw, h⟩ := List.mem_map.mp hu
    rw [← h]
    exact normTok_wf _ (correctTok_wf _ (rwTok_wf w (word_wf x w hw)))
  have hsp : splitWS (correct x true)
      = (splitWS (lowerL x)).map (fun w => normTok (correctTok (rwTok w))) := by
    rw [hnf]
    exact splitWS_joinSP _ (fun u hu => ⟨(hwf u hu).1, (hwf u hu).2.1⟩)
  have hfix : ∀ u ∈ (splitWS (lowerL x)).map (fun w => normTok (correctTok (rwTok w))),
      rwTok u = u ∧ correctTok u = u ∧ normTok u = u := by
    intro u hu
    obtain ⟨w, hw, h⟩ := List.mem_map.mp hu
    rcases out_tok_cases w with hcase | hcase
    · exfalso
      apply hg
      rw [hsp]
      have hug : u = ("gram").toList := h.symm.trans hcase
      rw [← hug]
      exact hu
    · rw [← h]
      exact hcase
  rw [hnf]
  exact correct_fixed_tokens _ hwf hfix

/-- C5 witness: the amended idempotence on `"rs"` (corrected to
`"rupees"`, which contains no `gram` token). -/
theorem C5_idempotent_no_gram_witness :
    ("gram").toList ∉ splitWS (correct (("rs").toList) true) ∧
    correct (correct (("rs").toList) true) true = correct (("rs").toList) true :=
  ⟨by decide, C5_idempotent_no_gram (("rs").toList) (by decide)⟩

/-- C10: the corrector's output contains no ASCII uppercase letters, is
exactly its tokens joined by single spaces, and is insensitive to the
input's case (`correct (lower x) = correct x`). -/
theorem C10_lowercase_join (text : Str) :
    (∀ c ∈ correct text true, isUpperAZ c = false) ∧
    joinSP (splitWS (correct text true)) = correct text true ∧
    correct (lowerL text) true = correct text true := by
  have hnf := correct_normal_form text
  have hwf : ∀ u ∈ (splitWS (lowerL text)).map (fun w => normTok (correctTok (rwTok w))),
      wfTok u := by
    intro u hu
    obtain ⟨w, hw, h⟩ := List.mem_map.mp hu
    rw [← h]
    exact normTok_wf _ (correctTok_wf _ (rwTok_wf w (word_wf text w hw)))
  refine ⟨?_, ?_, ?_⟩
  · intro c hc
    rw [hnf] at hc
    rcases joinSP_chars _ c hc with h | ⟨u, hu, hcu⟩
    · rw [h]; decide
    · exact (hwf u hu).2.2 c hcu
  · rw [hnf]
    rw [splitWS_joinSP _ (fun u hu => ⟨(hwf u hu).1, (hwf u hu).2.1⟩)]
  · rw [hnf, correct_normal_form (lowerL text), lowerL_idem]

end HypeLens
